import Mathlib

/-!
# Verification of the locator-extractor element-capture pipeline

Shallow embedding of the algorithmic core of `locator-extractor.js`:
selector synthesis (`cssPath`, `absoluteXPath`), filter matching
(`elementMatchesFilter` in the injected page script and
`elementMatchesFilterNode` on the node side), element serialization
(`serializeElement` and the bulk-scan `serialize`), the hidden-element
scan, the CDP metadata helper (`getAdvancedMetadata`) and deduplication
(`deduplicate`).

JavaScript strings are modelled by Lean `String`; the JS string
operations used by the source (`toLowerCase`, `trim`, `split`,
`Array.join`, number-to-decimal-string conversion) are given transparent
character-list definitions below so that all definitions evaluate by
kernel reduction.  JS `null`/`undefined` field values are `Option`,
thrown exceptions of fallible DOM reads are `Except Unit`/`Except String`
values, and DOM floats (bounding boxes) are `ℚ`.
-/

namespace LocExt

/-! ## String helpers (models of the JS string primitives used by the source) -/

/-- Model of JS `String.prototype.toLowerCase` (per-character ASCII lowering,
which is all the source relies on: tag names, selector tokens, key strings). -/
def lowerStr (s : String) : String := ⟨s.data.map Char.toLower⟩

/-- JS whitespace characters relevant to `\s` / `trim` on ASCII input. -/
def isWsChar (c : Char) : Bool :=
  c = ' ' || c = '\t' || c = '\n' || c = '\r' || c = '\x0c'

/-- Model of JS `String.prototype.trim`: strip leading and trailing whitespace. -/
def trimJs (s : String) : String :=
  ⟨((s.data.dropWhile isWsChar).reverse.dropWhile isWsChar).reverse⟩

/-- Model of JS `str.split(sep)` for a single-character separator `sep`
(used by the source with `","` and `"="`).  `"".split(sep) = [""]`. -/
def splitChar (sep : Char) : List Char → List String
  | [] => [""]
  | c :: rest =>
    let r := splitChar sep rest
    if c = sep then "" :: r
    else
      match r with
      | [] => [⟨[c]⟩]
      | h :: t => ⟨c :: h.data⟩ :: t

/-- `s.split(sep)` on a `String`. -/
def splitStr (sep : Char) (s : String) : List String := splitChar sep s.data

/-- Model of JS `Array.prototype.join(sep)`. -/
def joinSep (sep : String) : List String → String
  | [] => ""
  | [x] => x
  | x :: y :: r => x ++ sep ++ joinSep sep (y :: r)

/-- Decimal digit character (`0`–`9`). -/
def digitCh (d : Nat) : Char := Char.ofNat (48 + d)

/-- Bounded-recursion core of decimal printing; the bound is only a
termination device, `natChars` below always calls it with a sufficient bound. -/
def natCharsB : Nat → Nat → List Char
  | 0, n => [digitCh n]
  | b + 1, n => if n < 10 then [digitCh n] else natCharsB b (n / 10) ++ [digitCh (n % 10)]

/-- Decimal digits of a natural number, most significant first. -/
def natChars (n : Nat) : List Char := natCharsB n n

/-- Model of JS number-to-string conversion for the natural numbers the
source interpolates into selector strings (sibling ordinals). -/
def natStr (n : Nat) : String := ⟨natChars n⟩

/-! ## Deduplicator (`deduplicate`, locator-extractor.js lines 54–69)

The aggregated records reaching `deduplicate` are raw JS objects; the
function reads exactly six fields (`pageUrl`, `tag`, `id`, `name`, `css`,
`xpath`), each possibly `null`/absent, and never reads the rest of the
record (text, attributes, advanced metadata, ...), which we bundle into
the opaque `extra` field. -/

structure DedupRec where
  pageUrl : Option String
  tag : Option String
  id : Option String
  name : Option String
  css : Option String
  xpath : Option String
  /-- all remaining payload fields (text, advanced metadata, ...), not read by `deduplicate` -/
  extra : String
deriving DecidableEq

/-- JS `x || ""` on a possibly-null string field. -/
def orEmpty : Option String → String
  | none => ""
  | some s => s

/-- The identity key:
`[pageUrl || "", tag || "", id || "", name || "", css || "", xpath || ""].join("|").toLowerCase()`. -/
def dedupKey (r : DedupRec) : String :=
  lowerStr (joinSep "|"
    [orEmpty r.pageUrl, orEmpty r.tag, orEmpty r.id,
     orEmpty r.name, orEmpty r.css, orEmpty r.xpath])

/-- `arr.filter(...)` with the mutable `seen` set threaded explicitly:
keep a record iff its key is not in `seen`, adding kept keys. -/
def dedupGo (seen : List String) : List DedupRec → List DedupRec
  | [] => []
  | r :: rest =>
    if dedupKey r ∈ seen then dedupGo seen rest
    else r :: dedupGo (dedupKey r :: seen) rest

/-- `deduplicate(arr)`: first-seen-wins filter over the identity key. -/
def deduplicate (arr : List DedupRec) : List DedupRec := dedupGo [] arr

/-- The `seen` set after the filter has processed a prefix of the array. -/
def seenAfter (seen : List String) : List DedupRec → List String
  | [] => seen
  | r :: rest => seenAfter (if dedupKey r ∈ seen then seen else dedupKey r :: seen) rest

/-! ## Elements, serialization and filter matching

`El` models the DOM element handle as the injected page script reads it.
Property reads that realistically throw inside the script's `try` blocks
(`getBoundingClientRect`, iterating `el.attributes`, `innerText`,
`getComputedStyle`, and the `cssPath`/`absoluteXPath` calls, whose
tree-walking is modelled separately below) are `Except Unit` values; plain
accessors are total. -/

deriving instance DecidableEq for Except

structure JsRect where
  x : ℚ
  y : ℚ
  width : ℚ
  height : ℚ
deriving DecidableEq

structure JsStyle where
  display : String
  visibility : String
  opacity : String
deriving DecidableEq

structure El where
  /-- `el.tagName` (HTML DOM canonical form, e.g. `"BUTTON"`) -/
  tagName : String
  /-- `el.id` (`""` when the attribute is absent) -/
  idProp : String
  /-- `el.className` (`""` when the attribute is absent) -/
  className : String
  /-- `el.attributes` in document order (names unique), also backing `getAttribute`/`hasAttribute` -/
  attrs : List (String × String)
  /-- `el.dataset` as a name-value map -/
  dataset : List (String × String)
  /-- `el.value` (`none` for elements without a value property) -/
  valueProp : Option String
  /-- `el.innerText` (fallible read) -/
  innerText : Except Unit String
  /-- `el.getBoundingClientRect()` (fallible) -/
  rect : Except Unit JsRect
  /-- `window.getComputedStyle(el)` (fallible) -/
  style : Except Unit JsStyle
  /-- result of `cssPath(el)` (fallible; the pure tree walk is modelled separately) -/
  cssRes : Except Unit String
  /-- result of `absoluteXPath(el)` (fallible) -/
  xpathRes : Except Unit String
  /-- result of `getShadowHostChain(el)` (`null` for no enclosing shadow root) -/
  shadowChain : Option String
  /-- whether iterating `el.attributes` throws -/
  attrsIterFails : Bool
  /-- `window !== window.top` -/
  crossOrigin : Bool
deriving DecidableEq

/-- `el.getAttribute(n)` (`none` = JS `null`). -/
def getAttr (el : El) (n : String) : Option String :=
  (el.attrs.find? (fun p => p.1 == n)).map (fun p => p.2)

/-- `el.getAttribute(n) || null` (also maps an empty attribute value to `null`). -/
def attrOrNull (el : El) (n : String) : Option String :=
  match getAttr el n with
  | some v => if v = "" then none else some v
  | none => none

/-- JS `a || b` for strings. -/
def jsOrStr (a b : String) : String := if a = "" then b else a

/-- JS `a || b` where `a` may be `null`/`undefined`. -/
def jsOrOpt (a : Option String) (b : String) : String :=
  match a with
  | none => b
  | some s => if s = "" then b else s

/-- JS `s.slice(0, n)` (on code points; the source only truncates display text). -/
def takeJs (s : String) (n : Nat) : String := ⟨s.data.take n⟩

/-- JS `s.slice(1)`. -/
def drop1 (s : String) : String := ⟨s.data.drop 1⟩

/-- JS `s.slice(1, -1)`. -/
def sliceInside (s : String) : String := ⟨(s.data.drop 1).dropLast⟩

/-- JS `s.startsWith(c)` for a one-character prefix. -/
def startsWithCh (s : String) (c : Char) : Bool :=
  match s.data with
  | [] => false
  | a :: _ => a == c

/-- JS `s.endsWith(c)` for a one-character suffix. -/
def endsWithCh (s : String) (c : Char) : Bool :=
  match s.data.getLast? with
  | none => false
  | some a => a == c

/-- JS `v.replace(/['"]/g, "")`. -/
def stripQuotes (s : String) : String :=
  ⟨s.data.filter (fun c => !(c == '\'' || c == '"'))⟩

/-!
JS `s.split(/\s+/)`: split on maximal whitespace runs; a leading or
trailing run contributes an empty-string element, and the empty string maps
to a singleton list of the empty string.
-/

mutual

/-- Whitespace splitting, inside a token whose characters so far are
accumulated (reversed) in `cur`. -/
def splitWsAux (cur : List Char) : List Char → List String
  | [] => [⟨cur.reverse⟩]
  | c :: rest =>
    if isWsChar c then ⟨cur.reverse⟩ :: splitWsSkip rest
    else splitWsAux (c :: cur) rest

/-- Whitespace splitting, inside a whitespace run. -/
def splitWsSkip : List Char → List String
  | [] => [""]
  | c :: rest =>
    if isWsChar c then splitWsSkip rest
    else splitWsAux [c] rest

end

/-- `className.split(/\s+/)` as used by `elementMatchesFilterNode`. -/
def splitWs (s : String) : List String := splitWsAux [] s.data

/-- `el.classList` token list: the maximal non-whitespace runs of the class
attribute, i.e. the whitespace split without its boundary empties.
`classList.contains(tok)` is membership here (`contains("")` is `false`). -/
def domTokens (s : String) : List String := (splitWs s).filter (fun t => t ≠ "")

/-- The serialized payload produced by `serializeElement` in the capture
script (lines 413–442) and parsed back from the `ELEMENT_CAPTURED:` console
message. -/
structure Payload where
  tag : Option String
  id : Option String
  name : Option String
  classAttr : Option String
  text : String
  role : Option String
  ariaLabel : Option String
  attributes : List (String × String)
  dataset : List (String × String)
  css : String
  xpath : String
  shadowHostChain : Option String
  visible : Bool
  x : ℚ
  y : ℚ
  width : ℚ
  height : ℚ
  crossOrigin : Bool
deriving DecidableEq

/-- `serializeElement(el)` (lines 413–442): the whole body runs inside one
`try { ... } catch(e) { return null; }`, so a throw from any fallible read
yields `none` for the entire record.  Reads are sequenced in source order
(rect, attributes loop, then the object literal's fields). -/
def serializeElement (el : El) : Option Payload :=
  match el.rect with
  | .error _ => none
  | .ok rect =>
    if el.attrsIterFails then none
    else match el.innerText with
    | .error _ => none
    | .ok text =>
      match el.cssRes with
      | .error _ => none
      | .ok css =>
        match el.xpathRes with
        | .error _ => none
        | .ok xpath =>
          match el.style with
          | .error _ => none
          | .ok st =>
            some {
              tag := if el.tagName = "" then none else some (lowerStr el.tagName)
              id := if el.idProp = "" then none else some el.idProp
              name := attrOrNull el "name"
              classAttr := if el.className = "" then none else some el.className
              text := takeJs (trimJs (jsOrStr text (jsOrOpt el.valueProp ""))) 300
              role := attrOrNull el "role"
              ariaLabel := attrOrNull el "aria-label"
              attributes := el.attrs
              dataset := el.dataset
              css := css
              xpath := xpath
              shadowHostChain := el.shadowChain
              visible := !(st.display == "none" || st.visibility == "hidden"
                || st.opacity == "0" || rect.width == 0 || rect.height == 0)
              x := rect.x
              y := rect.y
              width := rect.width
              height := rect.height
              crossOrigin := el.crossOrigin }

/-- The record produced per element by `serialize` inside
`__locatorScanAll` (lines 491–520).  Note: no `width`/`height` fields. -/
structure ScanPayload where
  tag : String
  id : Option String
  name : Option String
  classAttr : Option String
  typeAttr : Option String
  placeholder : Option String
  value : Option String
  href : Option String
  title : Option String
  role : Option String
  ariaLabel : Option String
  text : String
  visible : Bool
  css : Option String
  xpath : Option String
  attributes : List (String × String)
  dataset : List (String × String)
  x : ℚ
  y : ℚ
deriving DecidableEq

/-- `serialize(el)` inside `__locatorScanAll` (lines 491–520): one outer
`try` returning `null`, but the `css`/`xpath` computations are each wrapped
in their own `try { ... } catch { return null; }`, degrading just those two
fields. -/
def scanSerialize (el : El) : Option ScanPayload :=
  match el.rect with
  | .error _ => none
  | .ok rect =>
    if el.attrsIterFails then none
    else match el.innerText with
    | .error _ => none
    | .ok text =>
      match el.style with
      | .error _ => none
      | .ok st =>
        some {
          tag := lowerStr el.tagName
          id := if el.idProp = "" then none else some el.idProp
          name := attrOrNull el "name"
          classAttr := if el.className = "" then none else some el.className
          typeAttr := attrOrNull el "type"
          placeholder := attrOrNull el "placeholder"
          value := match el.valueProp with
            | some v => if v = "" then none else some v
            | none => none
          href := attrOrNull el "href"
          title := attrOrNull el "title"
          role := attrOrNull el "role"
          ariaLabel := attrOrNull el "aria-label"
          text := takeJs (trimJs (jsOrStr text (jsOrOpt el.valueProp ""))) 300
          visible := !(rect.width == 0 && rect.height == 0)
            && st.display != "none" && st.visibility != "hidden" && st.opacity != "0"
          css := el.cssRes.toOption
          xpath := el.xpathRes.toOption
          attributes := el.attrs
          dataset := el.dataset
          x := rect.x
          y := rect.y }

/-- The record pushed per element by the hidden-element scan
(lines 865–888); `visible` is the literal `false`. -/
structure HiddenPayload where
  tag : String
  id : Option String
  name : Option String
  classAttr : Option String
  text : String
  attributes : List (String × String)
  dataset : List (String × String)
  visible : Bool
deriving DecidableEq

/-- One token of the node-side matcher `elementMatchesFilterNode`
(lines 575–599), evaluated against a serialized payload. -/
def nodeTokenMatch (elData : Payload) (f : String) : Bool :=
  if startsWithCh f '.' then
    (splitWs (orEmpty elData.classAttr)).contains (drop1 f)
  else if startsWithCh f '#' then
    match elData.id with
    | none => false
    | some v => v == drop1 f
  else if startsWithCh f '[' && endsWithCh f ']' then
    let inside := sliceInside f
    let parts := splitStr '=' inside
    let attr := parts.headD ""
    match parts[1]? with
    | some v =>
      if v ≠ "" then
        decide ((elData.attributes.find? (fun p => p.1 == attr)).map (fun p => p.2)
          = some (stripQuotes v))
      else ((elData.attributes.find? (fun p => p.1 == attr)).map (fun p => p.2)).isSome
    | none => ((elData.attributes.find? (fun p => p.1 == attr)).map (fun p => p.2)).isSome
  else
    match elData.tag with
    | none => false
    | some t => lowerStr t == lowerStr f

/-- `elementMatchesFilterNode(elData, filters)` (lines 575–599): `true` for
an absent or empty filter set, else OR over the tokens.  None of the
modelled token operations throw, so the source's `catch { return false }`
is unreachable. -/
def elementMatchesFilterNode (elData : Payload) (filters : Option (List String)) : Bool :=
  match filters with
  | none => true
  | some fs => if fs.isEmpty then true else fs.any (nodeTokenMatch elData)

/-- One token of the in-page matcher `elementMatchesFilter` (lines
474–489, with identical copies in the fallback walker and the hidden
scan), evaluated against the live element. -/
def pageTokenMatch (el : El) (f : String) : Bool :=
  if startsWithCh f '.' then
    (domTokens el.className).contains (drop1 f)
  else if startsWithCh f '#' then
    el.idProp == drop1 f
  else if startsWithCh f '[' && endsWithCh f ']' then
    let inside := sliceInside f
    let parts := splitStr '=' inside
    let attr := parts.headD ""
    match parts[1]? with
    | some v =>
      if v ≠ "" then decide (getAttr el attr = some (stripQuotes v))
      else (getAttr el attr).isSome
    | none => (getAttr el attr).isSome
  else
    lowerStr el.tagName == lowerStr f

/-- `elementMatchesFilter(el, filters)` as defined inside
`__locatorScanAll` and the two other in-page walkers. -/
def elementMatchesFilterPage (el : El) (filters : Option (List String)) : Bool :=
  match filters with
  | none => true
  | some fs => if fs.isEmpty then true else fs.any (pageTokenMatch el)

/-- The in-page token preprocessing (line 470–472 and 850):
`csv ? csv.split(',').map(s => s.trim().toLowerCase()).filter(Boolean) : null`. -/
def scanAllowed (csv : Option String) : Option (List String) :=
  match csv with
  | none => none
  | some s =>
    if s = "" then none
    else some (((splitStr ',' s).map (fun t => lowerStr (trimJs t))).filter (fun t => t ≠ ""))

/-- The `__locatorScanAll` enumeration loop (lines 522–539): per element,
filter-match, visibility gate (`width > 0 && height > 0` and style checks),
then `serialize`; a throw anywhere in the body skips just that element.
(`document.querySelectorAll("*")` yields distinct nodes, so the `seen` set
of the source never rejects and is omitted.) -/
def scanAll (els : List El) (csv : Option String) : List ScanPayload :=
  els.filterMap (fun el =>
    if !(elementMatchesFilterPage el (scanAllowed csv)) then none
    else match el.rect, el.style with
      | .ok rect, .ok st =>
        let isVisible := decide (0 < rect.width) && decide (0 < rect.height)
          && st.visibility != "hidden" && st.display != "none" && st.opacity != "0"
        if !isVisible then none else scanSerialize el
      | _, _ => none)

/-- The hidden-element scan loop (lines 865–888): per element,
filter-match, then keep only elements whose visibility formula is false,
emitting a record with the literal `visible: false`. -/
def hiddenScan (els : List El) (csv : Option String) : List HiddenPayload :=
  els.filterMap (fun el =>
    if !(elementMatchesFilterPage el (scanAllowed csv)) then none
    else match el.rect, el.style with
      | .ok rect, .ok st =>
        let visible := !(rect.width == 0 && rect.height == 0)
          && st.display != "none" && st.visibility != "hidden" && st.opacity != "0"
        if visible then none
        else if el.attrsIterFails then none
        else match el.innerText with
          | .error _ => none
          | .ok text =>
            some {
              tag := lowerStr el.tagName
              id := if el.idProp = "" then none else some el.idProp
              name := attrOrNull el "name"
              classAttr := if el.className = "" then none else some el.className
              text := takeJs (trimJs (jsOrStr text "")) 300
              attributes := el.attrs
              dataset := el.dataset
              visible := false }
      | _, _ => none)

/-! ## The DOM tree and the Selector Synthesizer (`cssPath`, `absoluteXPath`)

A DOM node is either absent (`nil`, the JS `null` end of a sibling chain)
or a node carrying its `nodeType === 1` flag, `tagName` (raw DOM
canonical form, uppercase for HTML), `id`, its first child and its next
sibling.  A position in a tree is the list of child indices from the
root; both selector synthesizers walk the ancestor chain of a position.
A *detached* element is modelled as a tree whose root is the element
itself (its `parentNode` is `null`); an attached element lives under a
document root with `isElem = false` (`nodeType 9`). -/

inductive DTree where
  | nil
  | node (isElem : Bool) (tag : String) (idAttr : String) (firstChild nextSibling : DTree)
deriving DecidableEq

/-- `n.nodeType === 1`. -/
def DTree.isElemB : DTree → Bool
  | .nil => false
  | .node k _ _ _ _ => k

/-- `n.tagName` (also `n.nodeName` for elements). -/
def DTree.tagOf : DTree → String
  | .nil => ""
  | .node _ t _ _ _ => t

/-- `n.id`. -/
def DTree.idOf : DTree → String
  | .nil => ""
  | .node _ _ i _ _ => i

/-- The sibling chain starting at a node (document order). -/
def sibList : DTree → List DTree
  | .nil => []
  | .node k t i fc ns => .node k t i fc ns :: sibList ns

/-- `n.childNodes` as a list. -/
def childrenOf : DTree → List DTree
  | .nil => []
  | .node _ _ _ fc _ => sibList fc

/-- The node at a position (child-index path), if any. -/
def nodeAt : DTree → List Nat → Option DTree
  | n, [] => some n
  | n, i :: p =>
    match (childrenOf n)[i]? with
    | some c => nodeAt c p
    | none => none

/-- The root-to-target chain of a position: each entry pairs a node with
its preceding-sibling list (all node kinds, document order); `sibs` is
the preceding-sibling list of the current subtree root (none for the
whole tree's root, which is parentless). -/
def chainFrom : List DTree → DTree → List Nat → Option (List (DTree × List DTree))
  | sibs, n, [] => some [(n, sibs)]
  | sibs, n, i :: p =>
    match (childrenOf n)[i]? with
    | some c =>
      match chainFrom ((childrenOf n).take i) c p with
      | some rest => some ((n, sibs) :: rest)
      | none => none
    | none => none

/-- The chain from the tree root down to a position. -/
def chain (root : DTree) (pos : List Nat) : Option (List (DTree × List DTree)) :=
  chainFrom [] root pos

/-- The `while (el && el.nodeType === 1) ... el = el.parentNode` climb:
the maximal run of element entries from the target upward (target first).
It ends at the document node for an attached element, or after the
subtree root (whose parent is `null`) for a detached one. -/
def upWalk (ch : List (DTree × List DTree)) : List (DTree × List DTree) :=
  ch.reverse.takeWhile (fun e => e.1.isElemB)

/-- The loop body of `cssPath` (lines 372–386), on the target-first climb:
lowercase tag, `#id` with a break at the first non-empty id, else
`:nth-of-type(n)` for a 1-based ordinal `n > 1` among preceding *element*
siblings with the same lowercase tag name. -/
def cssLevels : List (DTree × List DTree) → List String
  | [] => []
  | (n, sibs) :: rest =>
    let sel := lowerStr n.tagOf
    if n.idOf ≠ "" then [sel ++ "#" ++ n.idOf]
    else
      let nth := 1 + (sibs.filter (fun s => s.isElemB && lowerStr s.tagOf == sel)).length
      (if nth ≠ 1 then sel ++ ":nth-of-type(" ++ natStr nth ++ ")" else sel) :: cssLevels rest

/-- `cssPath(el)` (lines 372–386) for the node at `pos` in `root`:
empty for a non-element, else the climb's selectors joined root-first
with `" > "`. -/
def cssPath (root : DTree) (pos : List Nat) : String :=
  match chain root pos with
  | none => ""
  | some ch =>
    match ch.getLast? with
    | none => ""
    | some (target, _) =>
      if !target.isElemB then ""
      else joinSep " > " ((cssLevels (upWalk ch)).reverse)

/-- One `tagname[ordinal]` component of `absoluteXPath`: the ordinal is
1-based among all preceding siblings that are elements with the same raw
`tagName`. -/
def xpathComp (n : DTree) (sibs : List DTree) : String :=
  lowerStr n.tagOf ++ "["
    ++ natStr (1 + (sibs.filter (fun s => s.isElemB && s.tagOf == n.tagOf)).length) ++ "]"

/-- `absoluteXPath(el)` (lines 388–398) for the node at `pos` in `root`:
empty for a non-element, else the climb's components joined root-first
with `/` and a leading slash. -/
def absoluteXPath (root : DTree) (pos : List Nat) : String :=
  match chain root pos with
  | none => ""
  | some ch =>
    match ch.getLast? with
    | none => ""
    | some (target, _) =>
      if !target.isElemB then ""
      else "/" ++ joinSep "/" (((upWalk ch).map (fun e => xpathComp e.1 e.2)).reverse)

/-- Every node strictly below the start of the position path exists and is
an element (the attached-element situation the climbs rely on). -/
def allElemAt : DTree → List Nat → Bool
  | _, [] => true
  | n, i :: p =>
    match (childrenOf n)[i]? with
    | some c => c.isElemB && allElemAt c p
    | none => false

/-- Characters legal in (HTML) tag names for the purposes of these
theorems: ASCII letters, digits and the custom-element dash. -/
def tagChars : List Char :=
  "abcdefghijklmnopqrstuvwxyzABCDEFGHIJKLMNOPQRSTUVWXYZ0123456789-".data

/-- A usable tag name: nonempty over `tagChars`. -/
def goodTagB (t : String) : Bool :=
  t ≠ "" && t.data.all (fun c => tagChars.contains c)

/-- Among any sibling list, raw tag names that agree after lowercasing
agree outright (true of any single HTML document, whose element
`tagName`s are canonically uppercased). -/
def sibsTagsOk (cs : List DTree) : Bool :=
  cs.all (fun a => cs.all (fun b =>
    !(a.isElemB && b.isElemB && (lowerStr a.tagOf == lowerStr b.tagOf)) || (a.tagOf == b.tagOf)))

/-- Well-formed tree: every element has a usable tag name and every
sibling list is lowercase-unambiguous. -/
def wfTree : DTree → Bool
  | .nil => true
  | .node k t _ fc ns =>
    (!k || goodTagB t) && sibsTagsOk (sibList fc) && wfTree fc && wfTree ns

/-- The top-down `(lowercase tag, ordinal)` components of a position, used
to reason about `absoluteXPath` on fully-element chains. -/
def xcomps : DTree → List Nat → List (String × Nat)
  | _, [] => []
  | n, i :: p =>
    match (childrenOf n)[i]? with
    | some c =>
      (lowerStr c.tagOf,
        1 + (((childrenOf n).take i).filter (fun s => s.isElemB && s.tagOf == c.tagOf)).length)
        :: xcomps c p
    | none => []

/-- String form of one xpath component. -/
def compStr (pr : String × Nat) : String := pr.1 ++ "[" ++ natStr pr.2 ++ "]"

/-- The 1-based `:nth-of-type` ordinal of a node among its preceding
*element* siblings sharing its lowercase tag name. -/
def nthOfType (c : DTree) (sibs : List DTree) : Nat :=
  1 + (sibs.filter (fun s => s.isElemB && lowerStr s.tagOf == lowerStr c.tagOf)).length

/-- The selector `cssPath` emits for one id-less level. -/
def cssSel (c : DTree) (sibs : List DTree) : String :=
  if nthOfType c sibs ≠ 1
  then lowerStr c.tagOf ++ ":nth-of-type(" ++ natStr (nthOfType c sibs) ++ ")"
  else lowerStr c.tagOf

/-! ## CDP advanced-metadata helper (`getAdvancedMetadata`, lines 129–165)

The CDP client is modelled by the outcomes of its five `send` calls; a
`.error` value is a rejected promise (a throw at the `await`).  The
`CSS.getComputedStyleForNode`, `Accessibility.getPartialAXTree` and
`DOMDebugger.getEventListeners` calls carry their own
`.catch(() => ...)` defaults in the source, so their failures never reach
the outer `catch`; `DOM.getDocument` and `DOM.querySelector` do not, so
their throws produce the `{error}` result.  `DOM.querySelector` reports
"no match" as `nodeId = 0` (falsy), not as a throw. -/

structure AxNode where
  role : Option String
  name : Option String
deriving DecidableEq

structure CdpClient where
  /-- outcome of `client.send("DOM.getDocument", ...)` — the root nodeId -/
  getDocument : Except String Nat
  /-- outcome of `client.send("DOM.querySelector", ...)` — a nodeId, `0` = no match -/
  querySelector : Except String Nat
  /-- outcome of `client.send("CSS.getComputedStyleForNode", ...)` -/
  computedStyle : Except String (List (String × String))
  /-- outcome of `client.send("Accessibility.getPartialAXTree", ...)` -/
  axNodes : Except String (List AxNode)
  /-- outcome of `client.send("DOMDebugger.getEventListeners", ...)` — listener type names -/
  listeners : Except String (List String)
deriving DecidableEq

structure AdvMeta where
  zIndex : Option String
  opacity : Option String
  display : Option String
  visibility : Option String
  pointerEvents : Option String
  cursor : Option String
  backgroundColor : Option String
  color : Option String
  font : Option String
  ariaRole : Option String
  ariaName : Option String
  listeners : List String
deriving DecidableEq

/-- The three possible resolutions of `getAdvancedMetadata`:
`null`, a metadata object, or the `{error: msg}` marker. -/
inductive MetaResult where
  | nullRes
  | meta (m : AdvMeta)
  | err (msg : String)
deriving DecidableEq

/-- JS-object lookup `obj[n]` for the `styles` map built by
`for (const s of computedStyle) styles[s.name] = s.value`
(a later assignment to the same name wins). -/
def objLookup (l : List (String × String)) (n : String) : Option String :=
  (l.reverse.find? (fun p => p.1 == n)).map (fun p => p.2)

/-- JS `x || null` on a possibly-absent string. -/
def jsOrNull (o : Option String) : Option String :=
  match o with
  | some v => if v = "" then none else some v
  | none => none

/-- `getAdvancedMetadata(page, client, selector)` (lines 129–165): `null`
for a useless selector or an unmatched one, `{error}` if resolution
throws, otherwise the assembled metadata; the function itself never
throws (the model is total and every sub-step failure is handled). -/
def getAdvancedMetadata (selector : Option String) (c : CdpClient) : MetaResult :=
  match selector with
  | none => .nullRes
  | some s =>
    if s = "" then .nullRes
    else
      match c.getDocument with
      | .error e => .err e
      | .ok _root =>
        match c.querySelector with
        | .error e => .err e
        | .ok nodeId =>
          if nodeId = 0 then .nullRes
          else
            let styles := c.computedStyle.toOption.getD []
            let axs := c.axNodes.toOption.getD []
            let accNode := axs.headD ⟨none, none⟩
            let ls := c.listeners.toOption.getD []
            .meta {
              zIndex := jsOrNull (objLookup styles "z-index")
              opacity := jsOrNull (objLookup styles "opacity")
              display := jsOrNull (objLookup styles "display")
              visibility := jsOrNull (objLookup styles "visibility")
              pointerEvents := jsOrNull (objLookup styles "pointer-events")
              cursor := jsOrNull (objLookup styles "cursor")
              backgroundColor := jsOrNull (objLookup styles "background-color")
              color := jsOrNull (objLookup styles "color")
              font := jsOrNull (objLookup styles "font-family")
              ariaRole := jsOrNull accNode.role
              ariaName := jsOrNull accNode.name
              listeners := ls }

/-- What ends up on the record's `advanced` field -/
inductive AdvAttach where
  | meta (m : AdvMeta)
  | err (msg : String)
deriving DecidableEq

/-- The caller's attach step (lines 750–757, 827–831, 895–896):
`const meta = await getAdvancedMetadata(...); if (meta) payload.advanced = meta;`
— a `null` result is falsy, so the field is left unset. -/
def attachAdvanced (r : MetaResult) : Option AdvAttach :=
  match r with
  | .nullRes => none
  | .meta m => some (.meta m)
  | .err e => some (.err e)

/-! ### Concrete elements used to instantiate the theorems -/

/-- A CDP client whose `DOM.querySelector` resolves to no node (`nodeId 0`). -/
def sampleNoMatchClient : CdpClient :=
  { getDocument := .ok 1, querySelector := .ok 0, computedStyle := .ok [],
    axNodes := .ok [], listeners := .ok [] }

/-- A CDP client whose `DOM.querySelector` call rejects. -/
def sampleErrClient : CdpClient :=
  { getDocument := .ok 1, querySelector := .error "Protocol error",
    computedStyle := .ok [], axNodes := .ok [], listeners := .ok [] }

/-- `<button id="loginBtn">` at document root level: the spec's example
`document > html > body > button#loginBtn`. -/
def btnNode : DTree := .node true "BUTTON" "loginBtn" .nil .nil

def bodyNode : DTree := .node true "BODY" "" btnNode .nil

def htmlNode : DTree := .node true "HTML" "" bodyNode .nil

def docNode : DTree := .node false "#document" "" htmlNode .nil

/-- Two `<a>` siblings under `body` (distinct-xpath witness). -/
def anchor2 : DTree := .node true "A" "" .nil .nil

def anchor1 : DTree := .node true "A" "" .nil anchor2

def bodyAnchors : DTree := .node true "BODY" "" anchor1 .nil

def htmlAnchors : DTree := .node true "HTML" "" bodyAnchors .nil

def docAnchors : DTree := .node false "#document" "" htmlAnchors .nil

/-- A detached `<div>`: an element whose `parentNode` is `null`. -/
def detachedDiv : DTree := .node true "DIV" "" .nil .nil

/-- A benign element `<div class="Btn">` with all DOM reads succeeding. -/
def sampleBtnEl : El :=
  { tagName := "DIV", idProp := "", className := "Btn", attrs := [], dataset := [],
    valueProp := none, innerText := .ok "", rect := .ok ⟨0, 0, 1, 1⟩,
    style := .ok ⟨"block", "visible", "1"⟩, cssRes := .ok "div", xpathRes := .ok "/div[1]",
    shadowChain := none, attrsIterFails := false, crossOrigin := false }

/-- The payload `serializeElement` produces for `sampleBtnEl`. -/
def sampleBtnPayload : Payload :=
  { tag := some "div", id := none, name := none, classAttr := some "Btn", text := "",
    role := none, ariaLabel := none, attributes := [], dataset := [], css := "div",
    xpath := "/div[1]", shadowHostChain := none, visible := true,
    x := 0, y := 0, width := 1, height := 1, crossOrigin := false }

/-- `sampleBtnEl` with only the `getBoundingClientRect` read throwing. -/
def sampleRectFailEl : El :=
  { sampleBtnEl with rect := .error () }

/-- `sampleBtnEl` styled `display:none` (picked up by the hidden scan). -/
def sampleHiddenEl : El :=
  { sampleBtnEl with style := .ok ⟨"none", "visible", "1"⟩ }

/-! ## Proofs -/

lemma dedupGo_sublist (seen : List String) : ∀ l : List DedupRec, (dedupGo seen l).Sublist l := by
  intro l
  induction l generalizing seen with
  | nil => simp [dedupGo]
  | cons r rest ih =>
    by_cases h : dedupKey r ∈ seen
    · exact List.Sublist.cons r (by simpa [dedupGo, h] using ih seen)
    · simpa [dedupGo, h] using List.Sublist.cons₂ r (ih (dedupKey r :: seen))

lemma dedupGo_append (seen : List String) (l1 l2 : List DedupRec) :
    dedupGo seen (l1 ++ l2) = dedupGo seen l1 ++ dedupGo (seenAfter seen l1) l2 := by
  induction l1 generalizing seen with
  | nil => simp [dedupGo, seenAfter]
  | cons r rest ih =>
    by_cases h : dedupKey r ∈ seen
    · simp [dedupGo, seenAfter, h, ih]
    · simp [dedupGo, seenAfter, h, ih]

lemma mem_seenAfter_mono (seen : List String) (l : List DedupRec) (k : String)
    (hk : k ∈ seen) : k ∈ seenAfter seen l := by
  induction l generalizing seen with
  | nil => simpa [seenAfter] using hk
  | cons a rest ih =>
    by_cases ha : dedupKey a ∈ seen
    · simpa [seenAfter, ha] using ih _ hk
    · simp only [seenAfter, if_neg ha]
      exact ih _ (List.mem_cons_of_mem _ hk)

lemma mem_seenAfter_of_mem (seen : List String) (l : List DedupRec) (r : DedupRec)
    (hr : r ∈ l) : dedupKey r ∈ seenAfter seen l := by
  induction l generalizing seen with
  | nil => cases hr
  | cons a rest ih =>
    rcases List.mem_cons.mp hr with h | h
    · subst h
      by_cases ha : dedupKey r ∈ seen
      · simpa [seenAfter, ha] using mem_seenAfter_mono _ rest _ ha
      · simp only [seenAfter, if_neg ha]
        exact mem_seenAfter_mono _ rest _ (List.mem_cons_self _ _)
    · simp only [seenAfter]
      exact ih _ h

lemma seenAfter_spec (seen : List String) (l : List DedupRec) (k : String)
    (hk : k ∈ seenAfter seen l) : k ∈ seen ∨ ∃ r ∈ l, dedupKey r = k := by
  induction l generalizing seen with
  | nil => exact Or.inl (by simpa [seenAfter] using hk)
  | cons a rest ih =>
    by_cases ha : dedupKey a ∈ seen
    · rcases ih _ (by simpa [seenAfter, ha] using hk) with h | ⟨r, hr, hkey⟩
      · exact Or.inl h
      · exact Or.inr ⟨r, List.mem_cons_of_mem _ hr, hkey⟩
    · simp only [seenAfter, if_neg ha] at hk
      rcases ih _ hk with h | ⟨r, hr, hkey⟩
      · rcases List.mem_cons.mp h with h | h
        · exact Or.inr ⟨a, List.mem_cons_self _ _, h.symm⟩
        · exact Or.inl h
      · exact Or.inr ⟨r, List.mem_cons_of_mem _ hr, hkey⟩

lemma dedupGo_countP_le (seen : List String) (l : List DedupRec) (k : String) :
    (dedupGo seen l).countP (fun x => decide (dedupKey x = k)) ≤ if k ∈ seen then 0 else 1 := by
  induction l generalizing seen with
  | nil => simp [dedupGo]
  | cons r rest ih =>
    by_cases h : dedupKey r ∈ seen
    · simpa [dedupGo, h] using ih seen
    · simp only [dedupGo, if_neg h, List.countP_cons]
      have htail := ih (dedupKey r :: seen)
      by_cases hk : dedupKey r = k
      · have hmem : k ∈ dedupKey r :: seen := by rw [← hk]; exact List.mem_cons_self _ _
        rw [if_pos hmem] at htail
        have hns : k ∉ seen := by rw [← hk]; exact h
        rw [if_neg hns]
        have h1 : decide (dedupKey r = k) = true := by simp [hk]
        simp only [h1, if_true]
        omega
      · have h0 : decide (dedupKey r = k) = false := by simp [hk]
        simp only [h0, Bool.false_eq_true, if_false, add_zero]
        by_cases hks : k ∈ seen
        · rw [if_pos (List.mem_cons_of_mem _ hks)] at htail
          rw [if_pos hks]
          exact htail
        · have hnm : k ∉ dedupKey r :: seen := by
            intro hc
            rcases List.mem_cons.mp hc with hc | hc
            · exact hk hc.symm
            · exact hks hc
          rw [if_neg hnm] at htail
          rw [if_neg hks]
          exact htail

/-- claim C6 auxiliary: a record whose key is still unseen and is not
preceded by an equal key is kept. -/
lemma dedup_first_kept (pre post : List DedupRec) (r : DedupRec)
    (hpre : ∀ x ∈ pre, dedupKey x ≠ dedupKey r) :
    r ∈ deduplicate (pre ++ r :: post) := by
  unfold deduplicate
  rw [dedupGo_append]
  have hnot : dedupKey r ∉ seenAfter [] pre := by
    intro hc
    rcases seenAfter_spec _ _ _ hc with h | ⟨x, hx, hkey⟩
    · cases h
    · exact hpre x hx hkey
  simp only [dedupGo, if_neg hnot]
  exact List.mem_append_right _ (List.mem_cons_self _ _)

/-- **C10** — `deduplicate` returns a subsequence of its input: retained
records keep their arrival order and every output record is one of the
input records, unmodified. -/
theorem deduplicate_sublist (arr : List DedupRec) : (deduplicate arr).Sublist arr :=
  dedupGo_sublist [] arr

/-- **C6** — the identity key is the case-folded `"|"`-join of
`pageUrl, tag, id, name, css (cssSelector), xpath (xpathSelector)` with
empty strings for missing components; deduplication is first-seen-wins and
idempotent under key collision: a later record sharing the first one's key
is dropped without being merged (the output equals the output with the
duplicate deleted from the input), the unique set holds at most one record
per key, the first record with an unprecedented key is retained, the
duplicate still counts toward `totalSeen` (the input length), and records
agreeing on the six key fields share a key no matter how the other fields
(e.g. advanced metadata) differ. -/
theorem dedup_identity_key_first_seen_wins
    (pre mid post : List DedupRec) (r1 r2 : DedupRec)
    (hkey : dedupKey r1 = dedupKey r2) :
    deduplicate ((pre ++ r1 :: mid) ++ r2 :: post) = deduplicate ((pre ++ r1 :: mid) ++ post)
    ∧ (deduplicate ((pre ++ r1 :: mid) ++ r2 :: post)).countP
        (fun x => decide (dedupKey x = dedupKey r1)) ≤ 1
    ∧ ((∀ x ∈ pre, dedupKey x ≠ dedupKey r1) →
        r1 ∈ deduplicate ((pre ++ r1 :: mid) ++ r2 :: post))
    ∧ ((pre ++ r1 :: mid) ++ r2 :: post).length = ((pre ++ r1 :: mid) ++ post).length + 1
    ∧ (∀ a b : DedupRec, a.pageUrl = b.pageUrl → a.tag = b.tag → a.id = b.id →
        a.name = b.name → a.css = b.css → a.xpath = b.xpath → dedupKey a = dedupKey b) := by
  have hmem : dedupKey r2 ∈ seenAfter [] (pre ++ r1 :: mid) := by
    rw [← hkey]
    exact mem_seenAfter_of_mem _ _ _ (by simp)
  refine ⟨?_, ?_, ?_, ?_, ?_⟩
  · unfold deduplicate
    rw [dedupGo_append [] (pre ++ r1 :: mid) (r2 :: post),
        dedupGo_append [] (pre ++ r1 :: mid) post]
    congr 1
    simp [dedupGo, hmem]
  · simpa using dedupGo_countP_le [] ((pre ++ r1 :: mid) ++ r2 :: post) (dedupKey r1)
  · intro hpre
    have := dedup_first_kept pre (mid ++ r2 :: post) r1 hpre
    simpa [List.append_assoc] using this
  · simp only [List.length_append, List.length_cons]
    omega
  · intro a b h1 h2 h3 h4 h5 h6
    unfold dedupKey
    rw [h1, h2, h3, h4, h5, h6]

/-- Witness for C6: the spec's own example — a record resubmitted
identically (here with richer metadata in a field outside the key) is
dropped, the unique set keeps exactly the first record, and both
submissions count toward the total. -/
theorem dedup_identity_key_first_seen_wins_witness :
    dedupKey ⟨some "https://a", some "a", some "", some "", some "a:nth-of-type(3)",
        some "/html[1]/body[1]/a[3]", "bare"⟩
      = dedupKey ⟨some "https://a", some "a", some "", some "", some "a:nth-of-type(3)",
        some "/html[1]/body[1]/a[3]", "withAdvancedMetadata"⟩
    ∧ deduplicate [⟨some "https://a", some "a", some "", some "", some "a:nth-of-type(3)",
          some "/html[1]/body[1]/a[3]", "bare"⟩,
        ⟨some "https://a", some "a", some "", some "", some "a:nth-of-type(3)",
          some "/html[1]/body[1]/a[3]", "withAdvancedMetadata"⟩]
        = deduplicate [⟨some "https://a", some "a", some "", some "", some "a:nth-of-type(3)",
          some "/html[1]/body[1]/a[3]", "bare"⟩] :=
  ⟨by decide,
   (dedup_identity_key_first_seen_wins [] [] []
     ⟨some "https://a", some "a", some "", some "", some "a:nth-of-type(3)",
       some "/html[1]/body[1]/a[3]", "bare"⟩
     ⟨some "https://a", some "a", some "", some "", some "a:nth-of-type(3)",
       some "/html[1]/body[1]/a[3]", "withAdvancedMetadata"⟩
     (by decide)).1⟩

lemma bool_eq_of_true_iff {a b : Bool} (h : a = true ↔ b = true) : a = b := by
  cases a <;> cases b <;> simp_all

lemma any_congr_of_mem {α : Type} {l : List α} {f g : α → Bool}
    (h : ∀ x ∈ l, f x = g x) : l.any f = l.any g := by
  induction l with
  | nil => rfl
  | cons a l ih =>
    simp only [List.any_cons]
    rw [h a (List.mem_cons_self _ _), ih (fun x hx => h x (List.mem_cons_of_mem _ hx))]

lemma map_id_of_mem {α : Type} {l : List α} {f : α → α}
    (h : ∀ x ∈ l, f x = x) : l.map f = l := by
  induction l with
  | nil => rfl
  | cons a l ih =>
    simp only [List.map_cons]
    rw [h a (List.mem_cons_self _ _), ih (fun x hx => h x (List.mem_cons_of_mem _ hx))]

lemma contains_filter_ne (L : List String) (a : String) (ha : a ≠ "") :
    (L.filter (fun t => t ≠ "")).contains a = L.contains a := by
  induction L with
  | nil => rfl
  | cons b L ih =>
    by_cases hb : b = ""
    · subst hb
      have h1 : (a == "") = false := beq_eq_false_iff_ne.mpr ha
      simp only [List.filter_cons, List.contains_cons, h1, Bool.false_or]
      simpa using ih
    · simp only [List.filter_cons, List.contains_cons]
      have : (decide (b ≠ "")) = true := by simpa using hb
      rw [this]
      simp only [if_true, List.contains_cons]
      rw [ih]

/-! ### Character-level facts about `toLowerCase` -/

lemma toNat_ofNat_valid (m : Nat) (h : m < 55296) : (Char.ofNat m).toNat = m := by
  rw [Char.ofNat, dif_pos (Or.inl h)]
  rfl

lemma toLower_eq_of (c : Char) (h : c.toNat ≥ 65 ∧ c.toNat ≤ 90) :
    c.toLower = Char.ofNat (c.toNat + 32) := by
  show (let n := c.toNat; if n ≥ 65 ∧ n ≤ 90 then Char.ofNat (n + 32) else c) = _
  simp only
  rw [if_pos h]

lemma toLower_eq_self (c : Char) (h : ¬(c.toNat ≥ 65 ∧ c.toNat ≤ 90)) :
    c.toLower = c := by
  show (let n := c.toNat; if n ≥ 65 ∧ n ≤ 90 then Char.ofNat (n + 32) else c) = _
  simp only
  rw [if_neg h]

lemma toLower_idem (c : Char) : c.toLower.toLower = c.toLower := by
  by_cases h : c.toNat ≥ 65 ∧ c.toNat ≤ 90
  · rw [toLower_eq_of c h]
    apply toLower_eq_self
    rw [toNat_ofNat_valid (c.toNat + 32) (by omega)]
    omega
  · rw [toLower_eq_self c h, toLower_eq_self c h]

lemma lowerStr_idem (s : String) : lowerStr (lowerStr s) = lowerStr s := by
  unfold lowerStr
  have hcomp : Char.toLower ∘ Char.toLower = Char.toLower := funext toLower_idem
  show (⟨(s.data.map Char.toLower).map Char.toLower⟩ : String) = _
  rw [List.map_map, hcomp]

lemma lowerStr_eq_empty_iff (s : String) : lowerStr s = "" ↔ s = "" := by
  unfold lowerStr
  constructor
  · intro h
    have hdata : s.data.map Char.toLower = ([] : List Char) := congrArg String.data h
    have hnil : s.data = [] := by simpa using hdata
    cases s
    simp_all
  · intro h; rw [h]; rfl

/-! ### Inversion of the serializers -/

lemma serializeElement_fields (el : El) (p : Payload) (hp : serializeElement el = some p) :
    p.tag = (if el.tagName = "" then none else some (lowerStr el.tagName))
    ∧ p.id = (if el.idProp = "" then none else some el.idProp)
    ∧ p.classAttr = (if el.className = "" then none else some el.className)
    ∧ p.attributes = el.attrs := by
  rcases hr : el.rect with e | rect
  · simp [serializeElement, hr] at hp
  rcases hi : el.innerText with e | text
  · simp [serializeElement, hr, hi] at hp
  by_cases hf : el.attrsIterFails = true
  · simp [serializeElement, hr, hf] at hp
  replace hf : el.attrsIterFails = false := by simpa using hf
  rcases hc : el.cssRes with e | css
  · simp [serializeElement, hr, hf, hi, hc] at hp
  rcases hx : el.xpathRes with e | xp
  · simp [serializeElement, hr, hf, hi, hc, hx] at hp
  rcases hst : el.style with e | st
  · simp [serializeElement, hr, hf, hi, hc, hx, hst] at hp
  simp only [serializeElement, hr, hf, hi, hc, hx, hst, if_false, Bool.false_eq_true,
    Option.some_inj] at hp
  subst hp
  exact ⟨rfl, rfl, rfl, rfl⟩

/-- **C9** — `elementMatchesFilterNode` (the `matches(record, filterSet)`
of the spec) returns `true` for an absent or empty filter set, and its
result is invariant under permutation of the filter expressions (OR is
order-independent). -/
theorem matches_empty_default_and_order_independent :
    (∀ p : Payload, elementMatchesFilterNode p none = true
      ∧ elementMatchesFilterNode p (some []) = true)
    ∧ (∀ (p : Payload) (l1 l2 : List String), l1.Perm l2 →
        elementMatchesFilterNode p (some l1) = elementMatchesFilterNode p (some l2)) := by
  constructor
  · intro p
    exact ⟨rfl, rfl⟩
  · intro p l1 l2 hperm
    unfold elementMatchesFilterNode
    cases l1 with
    | nil =>
      cases l2 with
      | nil => rfl
      | cons b t => exact absurd hperm.length_eq (by simp)
    | cons a t1 =>
      cases l2 with
      | nil => exact absurd hperm.length_eq (by simp)
      | cons b t2 =>
        simp only [List.isEmpty_cons, if_false, Bool.false_eq_true]
        apply bool_eq_of_true_iff
        simp only [List.any_eq_true]
        constructor
        · rintro ⟨x, hx, hfx⟩
          exact ⟨x, hperm.mem_iff.mp hx, hfx⟩
        · rintro ⟨x, hx, hfx⟩
          exact ⟨x, hperm.mem_iff.mpr hx, hfx⟩

/-- Witness for C9: a two-token filter set evaluated in both orders on a
concrete payload. -/
theorem matches_empty_default_and_order_independent_witness :
    ([".Btn", "div"].Perm ["div", ".Btn"])
    ∧ elementMatchesFilterNode sampleBtnPayload (some [".Btn", "div"])
      = elementMatchesFilterNode sampleBtnPayload (some ["div", ".Btn"]) :=
  ⟨by decide,
   matches_empty_default_and_order_independent.2 sampleBtnPayload
     [".Btn", "div"] ["div", ".Btn"] (by decide)⟩

/-- **C5 counterexample** — `serializeElement`'s body is one
`try { ... } catch { return null }`: an element whose only failing DOM
read is `getBoundingClientRect` (all other reads succeed) produces no
record at all (`none`), instead of a record with just the box-derived
fields nulled — so a single field's failure does abort the whole record. -/
theorem serialize_per_field_isolation_counterexample :
    serializeElement sampleRectFailEl = none
    ∧ sampleRectFailEl.rect = .error ()
    ∧ sampleRectFailEl.attrsIterFails = false
    ∧ sampleRectFailEl.innerText = .ok ""
    ∧ sampleRectFailEl.style = .ok ⟨"block", "visible", "1"⟩
    ∧ sampleRectFailEl.cssRes = .ok "div"
    ∧ sampleRectFailEl.xpathRes = .ok "/div[1]" := by
  refine ⟨rfl, rfl, rfl, rfl, rfl, rfl, rfl⟩

/-- **C5 amended** — fault isolation in serialization is record-level, not
field-level: `serializeElement` returns `null` for the whole record exactly
when one of its fallible DOM reads throws; only the bulk-scan `serialize`
isolates failures of the `cssPath`/`absoluteXPath` computations, degrading
just the `css`/`xpath` fields to `null` while the rest of that record is
still produced (and it too aborts wholly on any other read's failure). -/
theorem serialize_failure_granularity (el : El) :
    (serializeElement el = none ↔
      (el.rect = .error () ∨ el.attrsIterFails = true ∨ el.innerText = .error ()
        ∨ el.cssRes = .error () ∨ el.xpathRes = .error () ∨ el.style = .error ()))
    ∧ (∀ s : ScanPayload, scanSerialize el = some s →
        s.css = el.cssRes.toOption ∧ s.xpath = el.xpathRes.toOption)
    ∧ (scanSerialize el = none ↔
      (el.rect = .error () ∨ el.attrsIterFails = true ∨ el.innerText = .error ()
        ∨ el.style = .error ())) := by
  refine ⟨?_, ?_, ?_⟩
  · rcases hr : el.rect with e | rect
    · cases e; simp [serializeElement, hr]
    rcases hi : el.innerText with e | text
    · cases e; simp [serializeElement, hr, hi]
    cases hf : el.attrsIterFails
    · rcases hc : el.cssRes with e | css
      · cases e; simp [serializeElement, hr, hf, hi, hc]
      rcases hx : el.xpathRes with e | xp
      · cases e; simp [serializeElement, hr, hf, hi, hc, hx]
      rcases hst : el.style with e | st
      · cases e; simp [serializeElement, hr, hf, hi, hc, hx, hst]
      simp [serializeElement, hr, hf, hi, hc, hx, hst]
    · simp [serializeElement, hr, hf]
  · intro s hs
    rcases hr : el.rect with e | rect
    · simp [scanSerialize, hr] at hs
    rcases hi : el.innerText with e | text
    · simp [scanSerialize, hr, hi] at hs
    cases hf : el.attrsIterFails
    · rcases hst : el.style with e | st
      · simp [scanSerialize, hr, hf, hi, hst] at hs
      simp only [scanSerialize, hr, hf, hi, hst, if_false, Bool.false_eq_true,
        Option.some_inj] at hs
      subst hs
      exact ⟨rfl, rfl⟩
    · simp [scanSerialize, hr, hf] at hs
  · rcases hr : el.rect with e | rect
    · cases e; simp [scanSerialize, hr]
    rcases hi : el.innerText with e | text
    · cases e; simp [scanSerialize, hr, hi]
    cases hf : el.attrsIterFails
    · rcases hst : el.style with e | st
      · cases e; simp [scanSerialize, hr, hf, hi, hst]
      simp [scanSerialize, hr, hf, hi, hst]
    · simp [scanSerialize, hr, hf]

/-- Witness for the amended C5: on the rect-failing element the record is
aborted; on an element whose only failure is the `cssPath` computation, the
bulk-scan serializer still produces the record with `css = null`. -/
theorem serialize_failure_granularity_witness :
    serializeElement sampleRectFailEl = none
    ∧ (∀ s : ScanPayload, scanSerialize { sampleBtnEl with cssRes := .error () } = some s →
        s.css = ({ sampleBtnEl with cssRes := .error () } : El).cssRes.toOption
          ∧ s.xpath = ({ sampleBtnEl with cssRes := .error () } : El).xpathRes.toOption) :=
  ⟨((serialize_failure_granularity sampleRectFailEl).1).mpr (Or.inl rfl),
   (serialize_failure_granularity { sampleBtnEl with cssRes := .error () }).2.1⟩

/-- **C1** — for all three producers, a record's `visible == true` implies
the producing element's bounding box has positive width and height (the
box is non-degenerate; positivity uses the DOM guarantee that
`getBoundingClientRect` never returns negative extents, taken as the
`0 ≤ _` hypotheses) and its computed style is none of `display:none`,
`visibility:hidden`, `opacity:'0'`.  For the hidden-element walk the flag
is always `false`, so the implication holds vacuously. -/
theorem visible_flag_invariant :
    (∀ (el : El) (p : Payload), serializeElement el = some p → p.visible = true →
      ((0 ≤ p.width → 0 < p.width) ∧ (0 ≤ p.height → 0 < p.height)
        ∧ ∀ st : JsStyle, el.style = .ok st →
            st.display ≠ "none" ∧ st.visibility ≠ "hidden" ∧ st.opacity ≠ "0"))
    ∧ (∀ (els : List El) (csv : Option String) (s : ScanPayload), s ∈ scanAll els csv →
        s.visible = true ∧ ∃ el ∈ els, ∃ rect st, el.rect = .ok rect ∧ el.style = .ok st
          ∧ 0 < rect.width ∧ 0 < rect.height
          ∧ st.display ≠ "none" ∧ st.visibility ≠ "hidden" ∧ st.opacity ≠ "0")
    ∧ (∀ (els : List El) (csv : Option String) (h : HiddenPayload), h ∈ hiddenScan els csv →
        h.visible = false) := by
  refine ⟨?_, ?_, ?_⟩
  · intro el p hp hvis
    rcases hr : el.rect with e | rect
    · simp [serializeElement, hr] at hp
    rcases hi : el.innerText with e | text
    · simp [serializeElement, hr, hi] at hp
    by_cases hf : el.attrsIterFails = true
    · simp [serializeElement, hr, hf] at hp
    replace hf : el.attrsIterFails = false := by simpa using hf
    rcases hc : el.cssRes with e | css
    · simp [serializeElement, hr, hf, hi, hc] at hp
    rcases hx : el.xpathRes with e | xp
    · simp [serializeElement, hr, hf, hi, hc, hx] at hp
    rcases hst : el.style with e | st
    · simp [serializeElement, hr, hf, hi, hc, hx, hst] at hp
    simp only [serializeElement, hr, hf, hi, hc, hx, hst, if_false, Bool.false_eq_true,
      Option.some_inj] at hp
    subst hp
    have hv : (st.display == "none" || st.visibility == "hidden" || st.opacity == "0"
        || rect.width == 0 || rect.height == 0) = false := by
      have := hvis
      rwa [Bool.not_eq_true'] at this
    simp only [Bool.or_eq_false_iff, beq_eq_false_iff_ne] at hv
    obtain ⟨⟨⟨⟨hd, hvi⟩, ho⟩, hw⟩, hh⟩ := hv
    refine ⟨fun hle => lt_of_le_of_ne hle (Ne.symm hw),
            fun hle => lt_of_le_of_ne hle (Ne.symm hh), ?_⟩
    intro st' hst'
    injection hst' with hse
    subst hse
    exact ⟨hd, hvi, ho⟩
  · intro els csv s hs
    obtain ⟨el, hel, hf⟩ := List.mem_filterMap.mp hs
    by_cases hm : elementMatchesFilterPage el (scanAllowed csv) = true
    swap
    · replace hm : elementMatchesFilterPage el (scanAllowed csv) = false := by simpa using hm
      simp [hm] at hf
    rcases hr : el.rect with e | rect
    · simp [hm, hr] at hf
    rcases hst : el.style with e | st
    · simp [hm, hr, hst] at hf
    simp only [hm, hr, hst, Bool.not_true, if_false, Bool.false_eq_true] at hf
    by_cases hv : (decide (0 < rect.width) && decide (0 < rect.height)
        && st.visibility != "hidden" && st.display != "none" && st.opacity != "0") = true
    swap
    · replace hv : (decide (0 < rect.width) && decide (0 < rect.height)
          && st.visibility != "hidden" && st.display != "none" && st.opacity != "0") = false := by
        simpa using hv
      simp [hv] at hf
    simp only [hv, Bool.not_true, if_false, Bool.false_eq_true] at hf
    simp only [Bool.and_eq_true, decide_eq_true_eq, bne_iff_ne] at hv
    obtain ⟨⟨⟨⟨h1, h2⟩, h3⟩, h4⟩, h5⟩ := hv
    constructor
    · rcases hi : el.innerText with e | text
      · simp [scanSerialize, hr, hi] at hf
      by_cases hfa : el.attrsIterFails = true
      · simp [scanSerialize, hr, hfa] at hf
      replace hfa : el.attrsIterFails = false := by simpa using hfa
      simp only [scanSerialize, hr, hfa, hi, hst, if_false, Bool.false_eq_true,
        Option.some_inj] at hf
      subst hf
      show (!(rect.width == 0 && rect.height == 0)
        && st.display != "none" && st.visibility != "hidden" && st.opacity != "0") = true
      have hw0 : (rect.width == 0) = false := beq_eq_false_iff_ne.mpr (ne_of_gt h1)
      have hd0 : (st.display != "none") = true := bne_iff_ne.mpr h4
      have hv0 : (st.visibility != "hidden") = true := bne_iff_ne.mpr h3
      have ho0 : (st.opacity != "0") = true := bne_iff_ne.mpr h5
      simp [hw0, hd0, hv0, ho0]
    · exact ⟨el, hel, rect, st, hr, hst, h1, h2, h4, h3, h5⟩
  · intro els csv h hmem
    obtain ⟨el, hel, hf⟩ := List.mem_filterMap.mp hmem
    by_cases hm : elementMatchesFilterPage el (scanAllowed csv) = true
    swap
    · replace hm : elementMatchesFilterPage el (scanAllowed csv) = false := by simpa using hm
      simp [hm] at hf
    rcases hr : el.rect with e | rect
    · simp [hm, hr] at hf
    rcases hst : el.style with e | st
    · simp [hm, hr, hst] at hf
    simp only [hm, hr, hst, Bool.not_true, if_false, Bool.false_eq_true] at hf
    by_cases hv : (!(rect.width == 0 && rect.height == 0)
        && st.display != "none" && st.visibility != "hidden" && st.opacity != "0") = true
    · rw [hv] at hf
      simp at hf
    replace hv : (!(rect.width == 0 && rect.height == 0)
        && st.display != "none" && st.visibility != "hidden" && st.opacity != "0") = false := by
      simpa using hv
    rw [hv] at hf
    simp only [if_false, Bool.false_eq_true] at hf
    by_cases hfa : el.attrsIterFails = true
    · simp [hfa] at hf
    replace hfa : el.attrsIterFails = false := by simpa using hfa
    rcases hi : el.innerText with e | text
    · simp [hfa, hi] at hf
    simp only [hfa, hi, if_false, Bool.false_eq_true, Option.some_inj] at hf
    subst hf
    rfl

/-- Witness for C1: a concrete visible element's record from
`serializeElement` has a positive box and passing styles, and a concrete
`display:none` element's hidden-scan record carries `visible = false`. -/
theorem visible_flag_invariant_witness :
    serializeElement sampleBtnEl = some sampleBtnPayload
    ∧ sampleBtnPayload.visible = true
    ∧ 0 < sampleBtnPayload.width
    ∧ 0 < sampleBtnPayload.height
    ∧ (⟨"div", none, none, some "Btn", "", [], [], false⟩ : HiddenPayload)
        ∈ hiddenScan [sampleHiddenEl] none
    ∧ (⟨"div", none, none, some "Btn", "", [], [], false⟩ : HiddenPayload).visible = false :=
  ⟨by decide, rfl,
   (visible_flag_invariant.1 sampleBtnEl sampleBtnPayload (by decide) rfl).1 (by decide),
   (visible_flag_invariant.1 sampleBtnEl sampleBtnPayload (by decide) rfl).2.1 (by decide),
   by decide,
   visible_flag_invariant.2.2 [sampleHiddenEl] none
     ⟨"div", none, none, some "Btn", "", [], [], false⟩ (by decide)⟩

/-! ### The two filter-matcher call sites (C4) -/

lemma tokenMatch_eq (el : El) (p : Payload) (hp : serializeElement el = some p)
    (t : String) (ht0 : t ≠ "")
    (hdot : startsWithCh t '.' = true → drop1 t ≠ "")
    (hhash : startsWithCh t '#' = true → drop1 t ≠ "") :
    nodeTokenMatch p t = pageTokenMatch el t := by
  obtain ⟨htag, hid, hclass, hattrs⟩ := serializeElement_fields el p hp
  unfold nodeTokenMatch pageTokenMatch
  by_cases h1 : startsWithCh t '.' = true
  · rw [if_pos h1, if_pos h1]
    have hcl : orEmpty p.classAttr = el.className := by
      rw [hclass]
      by_cases hc : el.className = "" <;> simp [orEmpty, hc]
    rw [hcl]
    unfold domTokens
    exact (contains_filter_ne _ _ (hdot h1)).symm
  by_cases h2 : startsWithCh t '#' = true
  · rw [if_neg h1, if_neg h1, if_pos h2, if_pos h2]
    rw [hid]
    by_cases hi : el.idProp = ""
    · have hbe : (el.idProp == drop1 t) = false := by
        rw [hi]
        exact beq_eq_false_iff_ne.mpr (fun hcontra => (hhash h2) hcontra.symm)
      simp [hi, hbe]
      exact fun hcontra => (hhash h2) hcontra.symm
    · simp [hi]
  by_cases h3 : (startsWithCh t '[' && endsWithCh t ']') = true
  · rw [if_neg h1, if_neg h1, if_neg h2, if_neg h2, if_pos h3, if_pos h3]
    rw [hattrs]
    rfl
  · rw [if_neg h1, if_neg h1, if_neg h2, if_neg h2, if_neg h3, if_neg h3]
    rw [htag]
    by_cases h4 : el.tagName = ""
    · have hlt : lowerStr t ≠ "" := fun hcontra => ht0 ((lowerStr_eq_empty_iff t).mp hcontra)
      have hbe : (lowerStr el.tagName == lowerStr t) = false := by
        rw [h4]
        exact beq_eq_false_iff_ne.mpr (fun hcontra => hlt hcontra.symm)
      simp [h4, hbe]
      exact fun hcontra => hlt hcontra.symm
    · simp only [h4, if_false]
      rw [lowerStr_idem]

/-- **C4 counterexample** — the two call sites of the Filter Matcher do
not accept the same elements: the in-page matcher lowercases filter tokens
during preprocessing while the node-side matcher receives them verbatim,
so for the element `<div class="Btn">` and the filter `.Btn` the node-side
matcher accepts (its serialized payload included) while the in-page
matcher (fed the same CSV, preprocessed) rejects. -/
theorem filter_matcher_call_sites_counterexample :
    serializeElement sampleBtnEl = some sampleBtnPayload
    ∧ elementMatchesFilterNode sampleBtnPayload (some [".Btn"]) = true
    ∧ elementMatchesFilterPage sampleBtnEl (scanAllowed (some ".Btn")) = false :=
  ⟨by decide, by decide, by decide⟩

/-- **C4 amended** — the node-side matcher on a serialized payload and the
in-page matcher (with its token preprocessing) accept exactly the same
elements, provided each filter token is nonempty, invariant under trimming
and lowercasing (the preprocessing the in-page copy applies but the
node-side caller does not), and carries a nonempty remainder after a
leading `.` or `#`. -/
theorem filter_matcher_call_site_equivalence
    (el : El) (p : Payload) (hp : serializeElement el = some p)
    (s : String) (toks : List String) (hsplit : splitStr ',' s = toks)
    (htoks : ∀ t ∈ toks, t ≠ "" ∧ trimJs t = t ∧ lowerStr t = t
      ∧ (startsWithCh t '.' = true → drop1 t ≠ "")
      ∧ (startsWithCh t '#' = true → drop1 t ≠ "")) :
    elementMatchesFilterNode p (some toks)
      = elementMatchesFilterPage el (scanAllowed (some s)) := by
  have hs : s ≠ "" := by
    intro h
    subst h
    have htoks0 : toks = [""] := by rw [← hsplit]; rfl
    exact (htoks "" (by rw [htoks0]; exact List.mem_singleton.mpr rfl)).1 rfl
  have hpre : scanAllowed (some s) = some toks := by
    simp only [scanAllowed]
    rw [if_neg hs, hsplit]
    have hmap : toks.map (fun t => lowerStr (trimJs t)) = toks :=
      map_id_of_mem (fun t ht => by rw [(htoks t ht).2.1, (htoks t ht).2.2.1])
    rw [hmap]
    rw [List.filter_eq_self.mpr (fun a ha => by simpa using (htoks a ha).1)]
  rw [hpre]
  unfold elementMatchesFilterNode elementMatchesFilterPage
  cases toks with
  | nil => rfl
  | cons a rest =>
    simp only [List.isEmpty_cons, Bool.false_eq_true, if_false]
    exact any_congr_of_mem (fun t ht =>
      tokenMatch_eq el p hp t ((htoks t ht).1) ((htoks t ht).2.2.2.1) ((htoks t ht).2.2.2.2))

/-- Witness for the amended C4: both matchers agree on a concrete element
for the already-lowercase filter CSV `div,.btn`. -/
theorem filter_matcher_call_site_equivalence_witness :
    splitStr ',' "div,.btn" = ["div", ".btn"]
    ∧ elementMatchesFilterNode sampleBtnPayload (some ["div", ".btn"])
        = elementMatchesFilterPage sampleBtnEl (scanAllowed (some "div,.btn")) :=
  ⟨by decide,
   filter_matcher_call_site_equivalence sampleBtnEl sampleBtnPayload (by decide)
     "div,.btn" ["div", ".btn"] (by decide) (by decide)⟩

/-! ### Metadata Fuser (C2) -/

/-- **C2 counterexample** — a selector that resolves to *no node*
(`DOM.querySelector` answers `nodeId 0`) makes `getAdvancedMetadata`
resolve to `null`, not to an error indicator, and the caller's
`if (meta) payload.advanced = meta` then skips the field: the owning
record appears in the snapshot *without* any indicator attached. -/
theorem metadata_fuser_no_node_counterexample :
    getAdvancedMetadata (some "#missing") sampleNoMatchClient = .nullRes
    ∧ attachAdvanced (getAdvancedMetadata (some "#missing") sampleNoMatchClient) = none :=
  ⟨rfl, rfl⟩

/-- **C2 amended** — `getAdvancedMetadata` never raises to its caller (the
model is a total function over all selector/client outcomes): a throw in
the unguarded resolution steps (`DOM.getDocument`, `DOM.querySelector`)
resolves to the `{error}` indicator, which the caller does attach to the
owning record; but a selector that is null/empty or resolves to no node
yields `null`, which the caller *skips* (the record appears without the
field) rather than attaching an indicator. -/
theorem metadata_fuser_error_paths (c : CdpClient) (s : String) (hs : s ≠ "") :
    (∀ e, c.getDocument = .error e → getAdvancedMetadata (some s) c = .err e)
    ∧ (∀ e r, c.getDocument = .ok r → c.querySelector = .error e →
        getAdvancedMetadata (some s) c = .err e)
    ∧ (∀ r, c.getDocument = .ok r → c.querySelector = .ok 0 →
        getAdvancedMetadata (some s) c = .nullRes)
    ∧ getAdvancedMetadata none c = .nullRes
    ∧ (∀ e, getAdvancedMetadata (some s) c = .err e →
        attachAdvanced (getAdvancedMetadata (some s) c) = some (.err e))
    ∧ (getAdvancedMetadata (some s) c = .nullRes →
        attachAdvanced (getAdvancedMetadata (some s) c) = none) := by
  refine ⟨?_, ?_, ?_, rfl, ?_, ?_⟩
  · intro e he
    simp [getAdvancedMetadata, hs, he]
  · intro e r hr hq
    simp [getAdvancedMetadata, hs, hr, hq]
  · intro r hr hq
    simp [getAdvancedMetadata, hs, hr, hq]
  · intro e he
    rw [he]
    rfl
  · intro he
    rw [he]
    rfl

/-- Witness for the amended C2: a concrete rejected `DOM.querySelector`
call yields the `{error}` marker and the caller attaches it. -/
theorem metadata_fuser_error_paths_witness :
    ("#x" : String) ≠ ""
    ∧ getAdvancedMetadata (some "#x") sampleErrClient = .err "Protocol error"
    ∧ attachAdvanced (getAdvancedMetadata (some "#x") sampleErrClient)
        = some (.err "Protocol error") :=
  ⟨by decide,
   (metadata_fuser_error_paths sampleErrClient "#x" (by decide)).2.1
     "Protocol error" 1 rfl rfl,
   (metadata_fuser_error_paths sampleErrClient "#x" (by decide)).2.2.2.2.1
     "Protocol error"
     ((metadata_fuser_error_paths sampleErrClient "#x" (by decide)).2.1
       "Protocol error" 1 rfl rfl)⟩

/-! ### Decimal printing: stability, digit range, injectivity -/

lemma str_ext {s t : String} (h : s.data = t.data) : s = t := by
  cases s
  cases t
  simp only at h
  rw [h]

lemma natCharsB_stable (n : Nat) : ∀ b1 b2, n ≤ b1 → n ≤ b2 →
    natCharsB b1 n = natCharsB b2 n := by
  induction n using Nat.strong_induction_on with
  | _ n ih =>
    intro b1 b2 h1 h2
    match b1, b2 with
    | 0, 0 => rfl
    | 0, b2 + 1 =>
      have hn : n = 0 := by omega
      subst hn
      simp [natCharsB]
    | b1 + 1, 0 =>
      have hn : n = 0 := by omega
      subst hn
      simp [natCharsB]
    | b1 + 1, b2 + 1 =>
      by_cases h : n < 10
      · simp [natCharsB, h]
      · simp only [natCharsB, if_neg h]
        have hdiv : n / 10 < n := Nat.div_lt_self (by omega) (by omega)
        rw [ih (n / 10) hdiv b1 b2 (by omega) (by omega)]

lemma natChars_eq (n : Nat) :
    natChars n = if n < 10 then [digitCh n] else natChars (n / 10) ++ [digitCh (n % 10)] := by
  unfold natChars
  by_cases h : n < 10
  · match n with
    | 0 => simp [natCharsB]
    | m + 1 => simp [natCharsB, h]
  · match n, h with
    | m + 1, h =>
      simp only [natCharsB, if_neg h]
      have hdiv : (m + 1) / 10 < m + 1 := Nat.div_lt_self (by omega) (by omega)
      rw [natCharsB_stable ((m + 1) / 10) m ((m + 1) / 10) (by omega) (le_refl _)]

lemma digitCh_toNat (d : Nat) (h : d < 10) : (digitCh d).toNat = 48 + d := by
  interval_cases d <;> decide

lemma digitCh_inj (a b : Nat) (ha : a < 10) (hb : b < 10) (h : digitCh a = digitCh b) :
    a = b := by
  have := congrArg Char.toNat h
  rw [digitCh_toNat a ha, digitCh_toNat b hb] at this
  omega

lemma natChars_ne_nil (n : Nat) : natChars n ≠ [] := by
  rw [natChars_eq]
  by_cases h : n < 10 <;> simp [h]

lemma natChars_digits (n : Nat) : ∀ c ∈ natChars n, 48 ≤ c.toNat ∧ c.toNat ≤ 57 := by
  induction n using Nat.strong_induction_on with
  | _ n ih =>
    intro c hc
    rw [natChars_eq] at hc
    by_cases h : n < 10
    · rw [if_pos h] at hc
      have : c = digitCh n := by simpa using hc
      subst this
      rw [digitCh_toNat n h]
      omega
    · rw [if_neg h] at hc
      rcases List.mem_append.mp hc with hm | hm
      · exact ih (n / 10) (Nat.div_lt_self (by omega) (by omega)) c hm
      · have : c = digitCh (n % 10) := by simpa using hm
        subst this
        rw [digitCh_toNat (n % 10) (by omega)]
        omega

lemma natChars_inj : ∀ m n : Nat, natChars m = natChars n → m = n := by
  intro m
  induction m using Nat.strong_induction_on with
  | _ m ih =>
    intro n h
    rw [natChars_eq m, natChars_eq n] at h
    by_cases hm : m < 10 <;> by_cases hn : n < 10
    · rw [if_pos hm, if_pos hn] at h
      exact digitCh_inj m n hm hn (by simpa using h)
    · rw [if_pos hm, if_neg hn] at h
      have hlen := congrArg List.length h
      simp at hlen
      exact absurd hlen (natChars_ne_nil (n / 10))
    · rw [if_neg hm, if_pos hn] at h
      have hlen := congrArg List.length h
      simp at hlen
      exact absurd hlen (natChars_ne_nil (m / 10))
    · rw [if_neg hm, if_neg hn] at h
      have hrev := congrArg List.reverse h
      simp only [List.reverse_append, List.reverse_cons, List.reverse_nil,
        List.nil_append, List.singleton_append] at hrev
      have hhead : digitCh (m % 10) = digitCh (n % 10) := (List.cons.injEq _ _ _ _ ▸ hrev).1
      have htail : (natChars (m / 10)).reverse = (natChars (n / 10)).reverse :=
        (List.cons.injEq _ _ _ _ ▸ hrev).2
      have hmod : m % 10 = n % 10 := digitCh_inj _ _ (by omega) (by omega) hhead
      have hdiv : m / 10 = n / 10 :=
        ih (m / 10) (Nat.div_lt_self (by omega) (by omega)) (n / 10)
          (List.reverse_injective htail)
      omega

lemma natStr_inj (m n : Nat) (h : natStr m = natStr n) : m = n :=
  natChars_inj m n (congrArg String.data h)

/-! ### Unique tokenization of separator-joined component strings -/

lemma append_sep_inj (c : Char) : ∀ (a1 a2 r1 r2 : List Char), c ∉ a1 → c ∉ a2 →
    a1 ++ c :: r1 = a2 ++ c :: r2 → a1 = a2 ∧ r1 = r2 := by
  intro a1
  induction a1 with
  | nil =>
    intro a2 r1 r2 h1 h2 heq
    cases a2 with
    | nil =>
      refine ⟨rfl, ?_⟩
      simpa using heq
    | cons x a2' =>
      exfalso
      simp only [List.nil_append, List.cons_append] at heq
      injection heq with hx _
      exact h2 (hx ▸ List.mem_cons_self x a2')
  | cons x a1' ih =>
    intro a2 r1 r2 h1 h2 heq
    cases a2 with
    | nil =>
      exfalso
      simp only [List.cons_append, List.nil_append] at heq
      injection heq with hx _
      exact h1 (hx ▸ List.mem_cons_self x a1')
    | cons y a2' =>
      simp only [List.cons_append] at heq
      injection heq with hxy htail
      have h1' : c ∉ a1' := fun hc => h1 (List.mem_cons_of_mem _ hc)
      have h2' : c ∉ a2' := fun hc => h2 (List.mem_cons_of_mem _ hc)
      obtain ⟨ha, hr⟩ := ih a2' r1 r2 h1' h2' htail
      exact ⟨by rw [hxy, ha], hr⟩

lemma joinSep_char_data_cons (c : Char) (x y : String) (r : List String) :
    (joinSep ⟨[c]⟩ (x :: y :: r)).data = x.data ++ c :: (joinSep ⟨[c]⟩ (y :: r)).data := by
  show (x ++ ⟨[c]⟩ ++ joinSep ⟨[c]⟩ (y :: r)).data = _
  rw [String.data_append, String.data_append]
  simp

lemma joinSep_char_inj (c : Char) : ∀ l1 l2 : List String,
    (∀ s ∈ l1, s ≠ "" ∧ c ∉ s.data) → (∀ s ∈ l2, s ≠ "" ∧ c ∉ s.data) →
    joinSep ⟨[c]⟩ l1 = joinSep ⟨[c]⟩ l2 → l1 = l2 := by
  intro l1
  induction l1 with
  | nil =>
    intro l2 h1 h2 heq
    cases l2 with
    | nil => rfl
    | cons y l2' =>
      exfalso
      cases l2' with
      | nil => exact (h2 y (List.mem_cons_self _ _)).1 heq.symm
      | cons z r =>
        have hd := congrArg String.data heq
        rw [joinSep_char_data_cons] at hd
        have hlen : (0 : Nat)
            = y.data.length + ((joinSep ⟨[c]⟩ (z :: r)).data.length + 1) := by
          have := congrArg List.length hd
          simpa using this
        omega
  | cons x l1' ih =>
    intro l2 h1 h2 heq
    cases l2 with
    | nil =>
      exfalso
      cases l1' with
      | nil => exact (h1 x (List.mem_cons_self _ _)).1 heq
      | cons z r =>
        have hd := congrArg String.data heq
        rw [joinSep_char_data_cons] at hd
        have hlen := congrArg List.length hd
        rw [show ((joinSep (⟨[c]⟩ : String) ([] : List String)).data).length = 0 from rfl,
          List.length_append, List.length_cons] at hlen
        omega
    | cons y l2' =>
      cases l1' with
      | nil =>
        cases l2' with
        | nil =>
          have : x = y := heq
          rw [this]
        | cons z r =>
          exfalso
          have hd := congrArg String.data heq
          rw [joinSep_char_data_cons] at hd
          have hcx : c ∈ x.data := by
            rw [show x.data = (joinSep ⟨[c]⟩ [x]).data from rfl, hd]
            exact List.mem_append_right _ (List.mem_cons_self _ _)
          exact (h1 x (List.mem_cons_self _ _)).2 hcx
      | cons w r1 =>
        cases l2' with
        | nil =>
          exfalso
          have hd := congrArg String.data heq
          rw [joinSep_char_data_cons] at hd
          have hcy : c ∈ y.data := by
            rw [show y.data = (joinSep ⟨[c]⟩ [y]).data from rfl, ← hd]
            exact List.mem_append_right _ (List.mem_cons_self _ _)
          exact (h2 y (List.mem_cons_self _ _)).2 hcy
        | cons z r2 =>
          have hd := congrArg String.data heq
          rw [joinSep_char_data_cons, joinSep_char_data_cons] at hd
          obtain ⟨hxy, hJ⟩ := append_sep_inj c _ _ _ _
            (h1 x (List.mem_cons_self _ _)).2 (h2 y (List.mem_cons_self _ _)).2 hd
          have hx : x = y := str_ext hxy
          have hrest : (w :: r1) = (z :: r2) := ih (z :: r2)
            (fun s hs => h1 s (List.mem_cons_of_mem _ hs))
            (fun s hs => h2 s (List.mem_cons_of_mem _ hs))
            (str_ext hJ)
          rw [hx, hrest]

/-! ### Tag-character facts -/

lemma contains_char_iff (l : List Char) (c : Char) : l.contains c = true ↔ c ∈ l := by
  induction l with
  | nil => exact ⟨fun h => Bool.noConfusion h, fun h => absurd h (List.not_mem_nil c)⟩
  | cons a t ih =>
    rw [List.contains_cons]
    simp [Bool.or_eq_true, beq_iff_eq, ih, List.mem_cons]

lemma tagChars_lower_closed : ∀ c ∈ tagChars, tagChars.contains (Char.toLower c) = true := by
  decide

lemma tagChars_safe : ∀ c ∈ tagChars, c ≠ '[' ∧ c ≠ ']' ∧ c ≠ '/' := by
  decide

lemma goodTag_lower (t : String) (h : goodTagB t = true) :
    lowerStr t ≠ "" ∧ '[' ∉ (lowerStr t).data ∧ '/' ∉ (lowerStr t).data := by
  unfold goodTagB at h
  rw [Bool.and_eq_true] at h
  obtain ⟨hne, hall⟩ := h
  replace hne : t ≠ "" := by simpa using hne
  replace hall : ∀ c ∈ t.data, tagChars.contains c = true := by
    simpa [List.all_eq_true] using hall
  have hsafeLower : ∀ c ∈ t.data, Char.toLower c ≠ '[' ∧ Char.toLower c ≠ ']'
      ∧ Char.toLower c ≠ '/' := by
    intro c hc
    have hmem : c ∈ tagChars := (contains_char_iff _ _).mp (hall c hc)
    have hlmem : Char.toLower c ∈ tagChars :=
      (contains_char_iff _ _).mp (tagChars_lower_closed c hmem)
    exact tagChars_safe (Char.toLower c) hlmem
  refine ⟨fun hc => hne ((lowerStr_eq_empty_iff t).mp hc), ?_, ?_⟩
  · intro hmem
    obtain ⟨c, hc, hlc⟩ := List.mem_map.mp hmem
    exact (hsafeLower c hc).1 hlc
  · intro hmem
    obtain ⟨c, hc, hlc⟩ := List.mem_map.mp hmem
    exact (hsafeLower c hc).2.2 hlc

/-! ### Injectivity of xpath components -/

lemma compStr_data (t : String) (k : Nat) :
    (compStr (t, k)).data = t.data ++ '[' :: (natChars k ++ [']']) := by
  show (t ++ "[" ++ natStr k ++ "]").data = _
  rw [String.data_append, String.data_append, String.data_append]
  simp [natStr]

lemma compStr_inj (t1 t2 : String) (k1 k2 : Nat)
    (h1 : '[' ∉ t1.data) (h2 : '[' ∉ t2.data)
    (he : compStr (t1, k1) = compStr (t2, k2)) : t1 = t2 ∧ k1 = k2 := by
  have hd := congrArg String.data he
  rw [compStr_data, compStr_data] at hd
  obtain ⟨ht, hr⟩ := append_sep_inj '[' _ _ _ _ h1 h2 hd
  refine ⟨str_ext ht, ?_⟩
  have hnc : natChars k1 = natChars k2 := by
    have := congrArg List.reverse hr
    simp only [List.reverse_append, List.reverse_cons, List.reverse_nil,
      List.nil_append, List.singleton_append] at this
    injection this with _ htl
    exact List.reverse_injective htl
  exact natChars_inj k1 k2 hnc

lemma map_compStr_inj : ∀ l1 l2 : List (String × Nat),
    (∀ pr ∈ l1, '[' ∉ pr.1.data) → (∀ pr ∈ l2, '[' ∉ pr.1.data) →
    l1.map compStr = l2.map compStr → l1 = l2 := by
  intro l1
  induction l1 with
  | nil =>
    intro l2 _ _ h
    cases l2 with
    | nil => rfl
    | cons b t => simp at h
  | cons a t1 ih =>
    intro l2 h1 h2 h
    cases l2 with
    | nil => simp at h
    | cons b t2 =>
      simp only [List.map_cons, List.cons.injEq] at h
      obtain ⟨hab, htl⟩ := h
      obtain ⟨a1, a2⟩ := a
      obtain ⟨b1, b2⟩ := b
      obtain ⟨he1, he2⟩ := compStr_inj a1 b1 a2 b2
        (h1 _ (List.mem_cons_self _ _)) (h2 _ (List.mem_cons_self _ _)) hab
      rw [he1, he2, ih t2 (fun pr hpr => h1 pr (List.mem_cons_of_mem _ hpr))
        (fun pr hpr => h2 pr (List.mem_cons_of_mem _ hpr)) htl]

lemma compStr_props (t : String) (k : Nat) (hslash : '/' ∉ t.data) :
    compStr (t, k) ≠ "" ∧ '/' ∉ (compStr (t, k)).data := by
  constructor
  · intro hc
    have := congrArg String.data hc
    rw [compStr_data] at this
    have hlen := congrArg List.length this
    simp at hlen
  · intro hmem
    rw [compStr_data] at hmem
    rcases List.mem_append.mp hmem with hm | hm
    · exact hslash hm
    · rcases List.mem_cons.mp hm with hm2 | hm2
      · exact absurd hm2.symm (by decide)
      · rcases List.mem_append.mp hm2 with hm3 | hm3
        · have := natChars_digits k '/' hm3
          revert this
          decide
        · have : '/' = ']' := by simpa using hm3
          exact absurd this (by decide)

/-! ### Chain lemmas -/

lemma chainFrom_shape : ∀ (pos : List Nat) (sibs : List DTree) (n : DTree)
    (ch : List (DTree × List DTree)), chainFrom sibs n pos = some ch →
    ch ≠ [] ∧ ∃ target tsibs, ch.getLast? = some (target, tsibs) ∧ nodeAt n pos = some target := by
  intro pos
  induction pos with
  | nil =>
    intro sibs n ch h
    simp only [chainFrom, Option.some_inj] at h
    subst h
    exact ⟨by simp, n, sibs, rfl, rfl⟩
  | cons i p ih =>
    intro sibs n ch h
    simp only [chainFrom] at h
    rcases hci : (childrenOf n)[i]? with _ | c
    · simp only [hci] at h
      exact Option.noConfusion h
    simp only [hci] at h
    rcases hrest : chainFrom ((childrenOf n).take i) c p with _ | rest
    · simp only [hrest] at h
      exact Option.noConfusion h
    simp only [hrest, Option.some_inj] at h
    subst h
    obtain ⟨hne, t, ts, hlast, hnode⟩ := ih _ _ _ hrest
    refine ⟨by simp, t, ts, ?_, ?_⟩
    · cases rest with
      | nil => exact absurd rfl hne
      | cons e r => rw [List.getLast?_cons_cons]; exact hlast
    · simp only [nodeAt, hci]
      exact hnode

lemma chainFrom_cons_shape (pos : List Nat) (sibs : List DTree) (n : DTree)
    (ch : List (DTree × List DTree)) (h : chainFrom sibs n pos = some ch) :
    ∃ rest, ch = (n, sibs) :: rest := by
  cases pos with
  | nil =>
    simp only [chainFrom, Option.some_inj] at h
    exact ⟨[], h.symm⟩
  | cons i p =>
    simp only [chainFrom] at h
    rcases hci : (childrenOf n)[i]? with _ | c
    · simp only [hci] at h
      exact Option.noConfusion h
    simp only [hci] at h
    rcases hrest : chainFrom ((childrenOf n).take i) c p with _ | rest
    · simp only [hrest] at h
      exact Option.noConfusion h
    simp only [hrest, Option.some_inj] at h
    exact ⟨rest, h.symm⟩

lemma chainFrom_snoc : ∀ (pos : List Nat) (sibs : List DTree) (n : DTree)
    (ch : List (DTree × List DTree)) (target : DTree) (tsibs : List DTree)
    (c : DTree) (i : Nat),
    chainFrom sibs n pos = some ch → ch.getLast? = some (target, tsibs) →
    (childrenOf target)[i]? = some c →
    chainFrom sibs n (pos ++ [i]) = some (ch ++ [(c, (childrenOf target).take i)]) := by
  intro pos
  induction pos with
  | nil =>
    intro sibs n ch target tsibs c i hch hlast hchild
    simp only [chainFrom, Option.some_inj] at hch
    subst hch
    simp only [List.getLast?_singleton, Option.some_inj, Prod.mk.injEq] at hlast
    obtain ⟨h1, h2⟩ := hlast
    subst h1
    subst h2
    simp only [List.nil_append, chainFrom, hchild]
    rfl
  | cons j p ih =>
    intro sibs n ch target tsibs c i hch hlast hchild
    simp only [chainFrom] at hch
    rcases hcj : (childrenOf n)[j]? with _ | cj
    · simp only [hcj] at hch
      exact Option.noConfusion hch
    simp only [hcj] at hch
    rcases hrest : chainFrom ((childrenOf n).take j) cj p with _ | rest
    · simp only [hrest] at hch
      exact Option.noConfusion hch
    simp only [hrest, Option.some_inj] at hch
    subst hch
    have hne : rest ≠ [] := (chainFrom_shape p _ _ _ hrest).1
    have hlast' : rest.getLast? = some (target, tsibs) := by
      cases rest with
      | nil => exact absurd rfl hne
      | cons e r => rw [List.getLast?_cons_cons] at hlast; exact hlast
    have hstep := ih _ cj rest target tsibs c i hrest hlast' hchild
    have hstep2 : chainFrom (List.take j (childrenOf n)) cj (p.append [i])
        = some (rest ++ [(c, List.take i (childrenOf target))]) := hstep
    simp only [List.cons_append, chainFrom, hcj]
    rw [hstep2]

lemma chainFrom_exists : ∀ (pos : List Nat) (sibs : List DTree) (n : DTree),
    allElemAt n pos = true → ∃ ch, chainFrom sibs n pos = some ch := by
  intro pos
  induction pos with
  | nil => intro sibs n _; exact ⟨[(n, sibs)], rfl⟩
  | cons i p ih =>
    intro sibs n h
    simp only [allElemAt] at h
    rcases hci : (childrenOf n)[i]? with _ | c
    · simp only [hci] at h
      exact Bool.noConfusion h
    simp only [hci, Bool.and_eq_true] at h
    obtain ⟨ch, hch⟩ := ih ((childrenOf n).take i) c h.2
    exact ⟨(n, sibs) :: ch, by simp only [chainFrom, hci, hch]⟩

lemma takeWhile_append_all {α : Type} (p : α → Bool) (l1 l2 : List α) (a : α)
    (h1 : ∀ x ∈ l1, p x = true) (ha : p a = false) :
    (l1 ++ a :: l2).takeWhile p = l1 := by
  induction l1 with
  | nil => simp [List.takeWhile_cons, ha]
  | cons x t ih =>
    simp only [List.cons_append, List.takeWhile_cons, h1 x (List.mem_cons_self _ _), if_true]
    rw [ih (fun y hy => h1 y (List.mem_cons_of_mem _ hy))]

/-! ### Well-formedness transfer -/

lemma wf_parts (k : Bool) (t i : String) (fc ns : DTree)
    (h : wfTree (.node k t i fc ns) = true) :
    (k = true → goodTagB t = true) ∧ sibsTagsOk (sibList fc) = true
      ∧ wfTree fc = true ∧ wfTree ns = true := by
  simp only [wfTree, Bool.and_eq_true] at h
  obtain ⟨⟨⟨h1, h2⟩, h3⟩, h4⟩ := h
  refine ⟨?_, h2, h3, h4⟩
  intro hk
  rw [Bool.or_eq_true] at h1
  rcases h1 with hh | hh
  · rw [hk] at hh
    exact Bool.noConfusion hh
  · exact hh

lemma wf_sib : ∀ m : DTree, wfTree m = true → ∀ c ∈ sibList m, wfTree c = true := by
  intro m
  induction m with
  | nil => intro _ c hc; cases hc
  | node k t i fc ns ihf ihn =>
    intro h c hc
    obtain ⟨_, _, _, hns⟩ := wf_parts k t i fc ns h
    rcases List.mem_cons.mp hc with hc1 | hc2
    · rw [hc1]
      exact h
    · exact ihn hns c hc2

lemma wf_child (n : DTree) (h : wfTree n = true) :
    ∀ c ∈ childrenOf n, wfTree c = true := by
  cases n with
  | nil => intro c hc; cases hc
  | node k t i fc ns =>
    intro c hc
    obtain ⟨_, _, hfc, _⟩ := wf_parts k t i fc ns h
    exact wf_sib fc hfc c hc

lemma wf_elem_goodTag (c : DTree) (h : wfTree c = true) (he : c.isElemB = true) :
    goodTagB c.tagOf = true := by
  cases c with
  | nil => exact Bool.noConfusion he
  | node k t i fc ns =>
    obtain ⟨hg, _, _, _⟩ := wf_parts k t i fc ns h
    exact hg he

lemma wf_sibsTagsOk (n : DTree) (h : wfTree n = true) :
    sibsTagsOk (childrenOf n) = true := by
  cases n with
  | nil => rfl
  | node k t i fc ns => exact (wf_parts k t i fc ns h).2.1

lemma sibsTagsOk_spec (cs : List DTree) (h : sibsTagsOk cs = true)
    (a b : DTree) (ha : a ∈ cs) (hb : b ∈ cs)
    (hae : a.isElemB = true) (hbe : b.isElemB = true)
    (hl : lowerStr a.tagOf = lowerStr b.tagOf) : a.tagOf = b.tagOf := by
  unfold sibsTagsOk at h
  rw [List.all_eq_true] at h
  have h2 := h a ha
  rw [List.all_eq_true] at h2
  have h3 := h2 b hb
  rw [Bool.or_eq_true] at h3
  rcases h3 with hneg | hpos
  · exfalso
    rw [Bool.not_eq_true', Bool.and_eq_false_iff] at hneg
    rcases hneg with h4 | h4
    · rw [Bool.and_eq_false_iff] at h4
      rcases h4 with h5 | h5
      · rw [hae] at h5
        exact Bool.noConfusion h5
      · rw [hbe] at h5
        exact Bool.noConfusion h5
    · rw [beq_eq_false_iff_ne] at h4
      exact h4 hl
  · exact beq_iff_eq.mp hpos

/-! ### The chain's entries and `xcomps` -/

lemma chainFrom_rest : ∀ (pos : List Nat) (sibs : List DTree) (n : DTree)
    (ch : List (DTree × List DTree)) (rest : List (DTree × List DTree)),
    chainFrom sibs n pos = some ch → ch = (n, sibs) :: rest →
    rest.map (fun e => xpathComp e.1 e.2) = (xcomps n pos).map compStr
    ∧ (allElemAt n pos = true → ∀ e ∈ rest, e.1.isElemB = true) := by
  intro pos
  induction pos with
  | nil =>
    intro sibs n ch rest h hch
    simp only [chainFrom, Option.some_inj] at h
    rw [← h] at hch
    have hrest : rest = [] := by
      have h2 := congrArg List.tail hch
      simpa using h2.symm
    subst hrest
    exact ⟨rfl, fun _ e he => absurd he (List.not_mem_nil e)⟩
  | cons i p ih =>
    intro sibs n ch rest h hch
    simp only [chainFrom] at h
    rcases hci : (childrenOf n)[i]? with _ | c
    · simp only [hci] at h
      exact Option.noConfusion h
    simp only [hci] at h
    rcases hrch : chainFrom ((childrenOf n).take i) c p with _ | rch
    · simp only [hrch] at h
      exact Option.noConfusion h
    simp only [hrch, Option.some_inj] at h
    rw [← h] at hch
    have hrest : rest = rch := by
      have h2 := congrArg List.tail hch
      simpa using h2.symm
    subst hrest
    obtain ⟨rest', hrch'⟩ := chainFrom_cons_shape p _ _ _ hrch
    obtain ⟨hmap, helem⟩ := ih _ _ _ _ hrch hrch'
    constructor
    · rw [hrch']
      simp only [List.map_cons, xcomps, hci]
      rw [hmap]
      rfl
    · intro hall e he
      simp only [allElemAt, hci, Bool.and_eq_true] at hall
      rw [hrch'] at he
      rcases List.mem_cons.mp he with he1 | he2
      · rw [he1]
        exact hall.1
      · exact helem hall.2 e he2

/-! ### Sibling-ordinal monotonicity and injectivity of `xcomps` -/

lemma count_take_lt (cs : List DTree) (i j : Nat) (ci : DTree) (tag : String)
    (hij : i < j) (hci : cs[i]? = some ci) (hel : ci.isElemB = true)
    (htag : ci.tagOf = tag) :
    ((cs.take i).filter (fun s => s.isElemB && s.tagOf == tag)).length + 1
      ≤ ((cs.take j).filter (fun s => s.isElemB && s.tagOf == tag)).length := by
  have hlen : i < cs.length := (List.getElem?_eq_some.mp hci).1
  have hget : cs[i] = ci := (List.getElem?_eq_some.mp hci).2
  have htake : cs.take j = cs.take i ++ (cs.drop i).take (j - i) := by
    have h0 := List.take_add cs i (j - i)
    rw [show i + (j - i) = j from by omega] at h0
    exact h0
  have hdrop : cs.drop i = ci :: cs.drop (i + 1) := by
    rw [List.drop_eq_getElem_cons hlen, hget]
  rcases hd : j - i with _ | m
  · omega
  · rw [htake, hdrop, hd]
    have hp : (ci.isElemB && ci.tagOf == tag) = true := by
      rw [hel, htag]
      simp
    rw [List.take_succ_cons, List.filter_append, List.filter_cons]
    simp only [hp, if_true, List.length_append, List.length_cons]
    omega

lemma xcomps_inj : ∀ (pos1 pos2 : List Nat) (n : DTree), wfTree n = true →
    allElemAt n pos1 = true → allElemAt n pos2 = true → pos1 ≠ pos2 →
    xcomps n pos1 ≠ xcomps n pos2 := by
  intro pos1
  induction pos1 with
  | nil =>
    intro pos2 n hwf h1 h2 hne
    cases pos2 with
    | nil => exact absurd rfl hne
    | cons j p2 =>
      simp only [allElemAt] at h2
      rcases hcj : (childrenOf n)[j]? with _ | c
      · simp only [hcj] at h2
        exact Bool.noConfusion h2
      intro hcontra
      simp only [xcomps, hcj] at hcontra
      exact List.noConfusion hcontra
  | cons i p1 ih =>
    intro pos2 n hwf h1 h2 hne
    cases pos2 with
    | nil =>
      simp only [allElemAt] at h1
      rcases hci : (childrenOf n)[i]? with _ | c
      · simp only [hci] at h1
        exact Bool.noConfusion h1
      intro hcontra
      simp only [xcomps, hci] at hcontra
      exact List.noConfusion hcontra
    | cons j p2 =>
      simp only [allElemAt] at h1 h2
      rcases hci : (childrenOf n)[i]? with _ | ci
      · simp only [hci] at h1
        exact Bool.noConfusion h1
      simp only [hci, Bool.and_eq_true] at h1
      rcases hcj : (childrenOf n)[j]? with _ | cj
      · simp only [hcj] at h2
        exact Bool.noConfusion h2
      simp only [hcj, Bool.and_eq_true] at h2
      by_cases hij : i = j
      · subst hij
        have hcc : ci = cj := by
          rw [hci] at hcj
          exact Option.some.inj hcj
        subst hcc
        have hp : p1 ≠ p2 := by
          intro hp
          exact hne (by rw [hp])
        intro hcontra
        simp only [xcomps, hci] at hcontra
        injection hcontra with _ htail
        exact ih p2 ci (wf_child n hwf ci (List.getElem?_mem hci)) h1.2 h2.2 hp htail
      · intro hcontra
        simp only [xcomps, hci, hcj] at hcontra
        injection hcontra with hhead _
        injection hhead with hl hcnt
        have hmi : ci ∈ childrenOf n := List.getElem?_mem hci
        have hmj : cj ∈ childrenOf n := List.getElem?_mem hcj
        have htags : ci.tagOf = cj.tagOf :=
          sibsTagsOk_spec _ (wf_sibsTagsOk n hwf) ci cj hmi hmj h1.1 h2.1 hl
        rcases Nat.lt_or_ge i j with hlt | hge
        · have hcount := count_take_lt (childrenOf n) i j ci cj.tagOf hlt hci h1.1 htags
          rw [htags] at hcnt
          omega
        · have hlt2 : j < i := by omega
          have hcount := count_take_lt (childrenOf n) j i cj cj.tagOf hlt2 hcj h2.1 rfl
          rw [htags] at hcnt
          omega

lemma xcomps_good : ∀ (pos : List Nat) (n : DTree), wfTree n = true →
    allElemAt n pos = true →
    ∀ pr ∈ xcomps n pos, pr.1 ≠ "" ∧ '[' ∉ pr.1.data ∧ '/' ∉ pr.1.data := by
  intro pos
  induction pos with
  | nil => intro n _ _ pr hpr; cases hpr
  | cons i p ih =>
    intro n hwf hall pr hpr
    simp only [allElemAt] at hall
    rcases hci : (childrenOf n)[i]? with _ | c
    · simp only [hci] at hall
      exact Bool.noConfusion hall
    simp only [hci, Bool.and_eq_true] at hall
    simp only [xcomps, hci] at hpr
    have hwfc : wfTree c = true := wf_child n hwf c (List.getElem?_mem hci)
    rcases List.mem_cons.mp hpr with hpr1 | hpr2
    · have hgood : goodTagB c.tagOf = true := wf_elem_goodTag c hwfc hall.1
      obtain ⟨g1, g2, g3⟩ := goodTag_lower c.tagOf hgood
      rw [hpr1]
      exact ⟨g1, g2, g3⟩
    · exact ih c hwfc hall.2 pr hpr2

lemma allElem_target : ∀ (pos : List Nat) (n : DTree), allElemAt n pos = true →
    pos ≠ [] → ∀ t, nodeAt n pos = some t → t.isElemB = true := by
  intro pos
  induction pos with
  | nil => intro n _ hne; exact absurd rfl hne
  | cons i p ih =>
    intro n hall _ t ht
    simp only [allElemAt] at hall
    rcases hci : (childrenOf n)[i]? with _ | c
    · simp only [hci] at hall
      exact Bool.noConfusion hall
    simp only [hci, Bool.and_eq_true] at hall
    simp only [nodeAt, hci] at ht
    cases p with
    | nil =>
      simp only [nodeAt, Option.some_inj] at ht
      rw [← ht]
      exact hall.1
    | cons j q => exact ih c hall.2 (by simp) t ht

lemma upWalk_of_allElem (root : DTree) (rest : List (DTree × List DTree))
    (hroot : root.isElemB = false)
    (helem : ∀ e ∈ rest, e.1.isElemB = true) :
    upWalk ((root, ([] : List DTree)) :: rest) = rest.reverse := by
  unfold upWalk
  rw [List.reverse_cons]
  exact takeWhile_append_all _ _ [] (root, [])
    (fun e he => helem e (List.mem_reverse.mp he)) (by simpa using hroot)

lemma absoluteXPath_eq_comps (root : DTree) (pos : List Nat)
    (hroot : root.isElemB = false) (hall : allElemAt root pos = true) (hne : pos ≠ []) :
    absoluteXPath root pos = "/" ++ joinSep "/" ((xcomps root pos).map compStr) := by
  obtain ⟨ch, hch⟩ := chainFrom_exists pos [] root hall
  obtain ⟨rest, hrest⟩ := chainFrom_cons_shape pos [] root ch hch
  obtain ⟨hmap, helem⟩ := chainFrom_rest pos [] root ch rest hch hrest
  obtain ⟨hchne, t, ts, hlast, hnode⟩ := chainFrom_shape pos [] root ch hch
  have hch' : chain root pos = some ch := hch
  have htelem : t.isElemB = true := allElem_target pos root hall hne t hnode
  simp only [absoluteXPath, hch', hlast, htelem, Bool.not_true, Bool.false_eq_true, if_false]
  rw [hrest, upWalk_of_allElem root rest hroot (helem hall)]
  rw [List.map_reverse, List.reverse_reverse, hmap]

lemma chainFrom_exists_of_nodeAt : ∀ (pos : List Nat) (sibs : List DTree) (n t : DTree),
    nodeAt n pos = some t → ∃ ch, chainFrom sibs n pos = some ch := by
  intro pos
  induction pos with
  | nil => intro sibs n t _; exact ⟨[(n, sibs)], rfl⟩
  | cons i p ih =>
    intro sibs n t h
    simp only [nodeAt] at h
    rcases hci : (childrenOf n)[i]? with _ | c
    · simp only [hci] at h
      exact Option.noConfusion h
    simp only [hci] at h
    obtain ⟨ch, hch⟩ := ih ((childrenOf n).take i) c t h
    exact ⟨(n, sibs) :: ch, by simp only [chainFrom, hci, hch]⟩

lemma upWalk_snoc (ch : List (DTree × List DTree)) (e : DTree × List DTree)
    (he : e.1.isElemB = true) : upWalk (ch ++ [e]) = e :: upWalk ch := by
  unfold upWalk
  rw [List.reverse_append]
  simp [List.takeWhile_cons, he]

lemma joinSep_concat (sep : String) : ∀ (L : List String) (x : String),
    joinSep sep (L ++ [x]) = if L = [] then x else joinSep sep L ++ sep ++ x := by
  intro L
  induction L with
  | nil => intro x; simp [joinSep]
  | cons y t ih =>
    intro x
    cases t with
    | nil => simp [joinSep]
    | cons z r =>
      rw [if_neg (by simp : ¬(y :: z :: r) = [])]
      have hLHS : joinSep sep ((y :: z :: r) ++ [x])
          = y ++ sep ++ joinSep sep ((z :: r) ++ [x]) := rfl
      rw [hLHS, ih x, if_neg (by simp : ¬(z :: r) = [])]
      rw [show joinSep sep (y :: z :: r) = y ++ sep ++ joinSep sep (z :: r) from rfl]
      simp [String.append_assoc]

lemma upWalk_head_elem (ch : List (DTree × List DTree)) (t : DTree) (ts : List DTree)
    (hlast : ch.getLast? = some (t, ts)) (ht : t.isElemB = true) :
    ∃ w, upWalk ch = (t, ts) :: w := by
  unfold upWalk
  have hrev : ch.reverse.head? = some (t, ts) := by rw [List.head?_reverse]; exact hlast
  cases hcr : ch.reverse with
  | nil => rw [hcr] at hrev; exact Option.noConfusion hrev
  | cons e rest =>
    rw [hcr] at hrev
    have he : e = (t, ts) := by
      simpa using hrev
    subst he
    rw [List.takeWhile_cons, ht]
    exact ⟨rest.takeWhile (fun e => e.1.isElemB), by simp⟩

lemma upWalk_nil_of_not_elem (ch : List (DTree × List DTree)) (t : DTree) (ts : List DTree)
    (hlast : ch.getLast? = some (t, ts)) (ht : t.isElemB = false) :
    upWalk ch = [] := by
  unfold upWalk
  have hrev : ch.reverse.head? = some (t, ts) := by rw [List.head?_reverse]; exact hlast
  cases hcr : ch.reverse with
  | nil => rfl
  | cons e rest =>
    rw [hcr] at hrev
    have he : e = (t, ts) := by simpa using hrev
    subst he
    rw [List.takeWhile_cons]
    simp [ht]

lemma cssLevels_cons (c : DTree) (sibs : List DTree) (rest : List (DTree × List DTree)) :
    cssLevels ((c, sibs) :: rest)
      = if c.idOf ≠ "" then [lowerStr c.tagOf ++ "#" ++ c.idOf]
        else cssSel c sibs :: cssLevels rest := by
  simp only [cssLevels, cssSel, nthOfType]

lemma startsWith_slash (s : String) : startsWithCh ("/" ++ s) '/' = true := by
  have hdata : ("/" ++ s).data = '/' :: s.data := by
    rw [String.data_append]
    rfl
  unfold startsWithCh
  rw [hdata]
  simp

lemma absoluteXPath_snoc (root : DTree) (pos : List Nat) (i : Nat) (parent c : DTree)
    (hpar : nodeAt root pos = some parent) (hchild : (childrenOf parent)[i]? = some c)
    (hcel : c.isElemB = true) :
    absoluteXPath root (pos ++ [i])
      = absoluteXPath root pos ++ "/" ++ xpathComp c ((childrenOf parent).take i) := by
  obtain ⟨ch, hch⟩ := chainFrom_exists_of_nodeAt pos [] root parent hpar
  obtain ⟨hchne, t, ts, hlast, hnode⟩ := chainFrom_shape pos [] root ch hch
  have htp : t = parent := by
    rw [hpar] at hnode
    exact (Option.some.inj hnode).symm
  subst htp
  have hch2 : chain root (pos ++ [i]) = some (ch ++ [(c, (childrenOf t).take i)]) :=
    chainFrom_snoc pos [] root ch t ts c i hch hlast hchild
  have hlast2 : (ch ++ [(c, (childrenOf t).take i)]).getLast?
      = some (c, (childrenOf t).take i) := List.getLast?_concat ch
  have hch' : chain root pos = some ch := hch
  simp only [absoluteXPath, hch2, hlast2, hcel, Bool.not_true, Bool.false_eq_true, if_false]
  rw [upWalk_snoc ch _ hcel]
  rw [List.map_cons, List.reverse_cons, joinSep_concat]
  by_cases hpe : t.isElemB = true
  · obtain ⟨w, hw⟩ := upWalk_head_elem ch t ts hlast hpe
    rw [if_neg (by rw [hw]; simp)]
    simp only [absoluteXPath, hch', hlast, hpe, Bool.not_true, Bool.false_eq_true, if_false]
    simp [String.append_assoc]
  · replace hpe : t.isElemB = false := by simpa using hpe
    rw [upWalk_nil_of_not_elem ch t ts hlast hpe]
    simp only [List.map_nil, List.reverse_nil, if_pos rfl]
    simp only [absoluteXPath, hch', hlast, hpe, Bool.not_false, if_true]
    simp [String.empty_append]

lemma cssPath_snoc (root : DTree) (pos : List Nat) (i : Nat) (parent c : DTree)
    (hpar : nodeAt root pos = some parent) (hchild : (childrenOf parent)[i]? = some c)
    (hcel : c.isElemB = true) (hid : c.idOf = "") :
    cssPath root (pos ++ [i])
      = (if parent.isElemB = true
         then cssPath root pos ++ " > " ++ cssSel c ((childrenOf parent).take i)
         else cssSel c ((childrenOf parent).take i)) := by
  obtain ⟨ch, hch⟩ := chainFrom_exists_of_nodeAt pos [] root parent hpar
  obtain ⟨hchne, t, ts, hlast, hnode⟩ := chainFrom_shape pos [] root ch hch
  have htp : t = parent := by
    rw [hpar] at hnode
    exact (Option.some.inj hnode).symm
  subst htp
  have hch2 : chain root (pos ++ [i]) = some (ch ++ [(c, (childrenOf t).take i)]) :=
    chainFrom_snoc pos [] root ch t ts c i hch hlast hchild
  have hlast2 : (ch ++ [(c, (childrenOf t).take i)]).getLast?
      = some (c, (childrenOf t).take i) := List.getLast?_concat ch
  have hch' : chain root pos = some ch := hch
  simp only [cssPath, hch2, hlast2, hcel, Bool.not_true, Bool.false_eq_true, if_false]
  rw [upWalk_snoc ch _ hcel, cssLevels_cons]
  rw [if_neg (by simpa using hid)]
  rw [List.reverse_cons, joinSep_concat]
  by_cases hpe : t.isElemB = true
  · obtain ⟨w, hw⟩ := upWalk_head_elem ch t ts hlast hpe
    have hlevne : (cssLevels (upWalk ch)).reverse ≠ [] := by
      rw [hw, cssLevels_cons]
      by_cases hi2 : t.idOf ≠ "" <;> simp [hi2]
    rw [if_neg hlevne, if_pos hpe]
    simp only [cssPath, hch', hlast, hpe, Bool.not_true, Bool.false_eq_true, if_false]
  · replace hpe : t.isElemB = false := by simpa using hpe
    rw [upWalk_nil_of_not_elem ch t ts hlast hpe]
    rw [show cssLevels ([] : List (DTree × List DTree)) = [] from rfl, List.reverse_nil]
    rw [if_pos (rfl : ([] : List String) = [])]
    rw [if_neg (show ¬(t.isElemB = true) by simp [hpe])]

lemma cssPath_id_shortcut (root : DTree) (pos : List Nat) (n : DTree)
    (hn : nodeAt root pos = some n) (hel : n.isElemB = true) (hid : n.idOf ≠ "") :
    cssPath root pos = lowerStr n.tagOf ++ "#" ++ n.idOf := by
  obtain ⟨ch, hch⟩ := chainFrom_exists_of_nodeAt pos [] root n hn
  obtain ⟨hchne, t, ts, hlast, hnode⟩ := chainFrom_shape pos [] root ch hch
  have htp : t = n := by
    rw [hn] at hnode
    exact (Option.some.inj hnode).symm
  subst htp
  have hch' : chain root pos = some ch := hch
  obtain ⟨w, hw⟩ := upWalk_head_elem ch t ts hlast hel
  simp only [cssPath, hch', hlast, hel, Bool.not_true, Bool.false_eq_true, if_false]
  rw [hw, cssLevels_cons, if_pos hid]
  rfl

lemma absoluteXPath_inj (root : DTree) (pos1 pos2 : List Nat)
    (hroot : root.isElemB = false) (hwf : wfTree root = true)
    (h1 : allElemAt root pos1 = true) (h2 : allElemAt root pos2 = true)
    (hn1 : pos1 ≠ []) (hn2 : pos2 ≠ []) (hne : pos1 ≠ pos2) :
    absoluteXPath root pos1 ≠ absoluteXPath root pos2 := by
  intro heq
  rw [absoluteXPath_eq_comps root pos1 hroot h1 hn1,
      absoluteXPath_eq_comps root pos2 hroot h2 hn2] at heq
  have hd := congrArg String.data heq
  rw [String.data_append, String.data_append] at hd
  have hd2 : (joinSep "/" ((xcomps root pos1).map compStr)).data
      = (joinSep "/" ((xcomps root pos2).map compStr)).data := by
    have hsl : ("/" : String).data = ['/'] := rfl
    rw [hsl] at hd
    simpa using hd
  have hJ : joinSep "/" ((xcomps root pos1).map compStr)
      = joinSep "/" ((xcomps root pos2).map compStr) := str_ext hd2
  have hsep : ("/" : String) = ⟨['/']⟩ := rfl
  rw [hsep] at hJ
  have hg1 := xcomps_good pos1 root hwf h1
  have hg2 := xcomps_good pos2 root hwf h2
  have hcond1 : ∀ s ∈ (xcomps root pos1).map compStr, s ≠ "" ∧ '/' ∉ s.data := by
    intro s hs
    obtain ⟨pr, hpr, hprs⟩ := List.mem_map.mp hs
    obtain ⟨p1, p2, p3⟩ := hg1 pr hpr
    rw [← hprs]
    exact compStr_props pr.1 pr.2 p3
  have hcond2 : ∀ s ∈ (xcomps root pos2).map compStr, s ≠ "" ∧ '/' ∉ s.data := by
    intro s hs
    obtain ⟨pr, hpr, hprs⟩ := List.mem_map.mp hs
    obtain ⟨p1, p2, p3⟩ := hg2 pr hpr
    rw [← hprs]
    exact compStr_props pr.1 pr.2 p3
  have hlists := joinSep_char_inj '/' _ _ hcond1 hcond2 hJ
  have hx := map_compStr_inj _ _ (fun pr hpr => (hg1 pr hpr).2.1)
    (fun pr hpr => (hg2 pr hpr).2.1) hlists
  exact xcomps_inj pos1 pos2 root hwf h1 h2 hne hx

/-- C3 counterexample: a detached element — one whose `parentNode` climb
never reaches a document — does *not* yield empty selector strings:
`cssPath` returns its one-level partial path `"div"` and `absoluteXPath`
returns `"/div[1]"`, both non-empty.  The guard `!(el instanceof Element)`
only blanks non-element inputs. -/
theorem detached_selector_counterexample :
    detachedDiv.isElemB = true
    ∧ cssPath detachedDiv [] = "div"
    ∧ absoluteXPath detachedDiv [] = "/div[1]"
    ∧ cssPath detachedDiv [] ≠ ""
    ∧ absoluteXPath detachedDiv [] ≠ "" := by decide

/-- C3 (amended): `cssPath` and `absoluteXPath` return the empty string
exactly on the guard the code actually has — a target that is not an
element node; a detached *element* instead yields the non-empty partial
path accumulated before the climb runs out of parents. -/
theorem selector_empty_for_non_element (root : DTree) (pos : List Nat) (n : DTree)
    (hn : nodeAt root pos = some n) (hne : n.isElemB = false) :
    cssPath root pos = "" ∧ absoluteXPath root pos = "" := by
  obtain ⟨ch, hch⟩ := chainFrom_exists_of_nodeAt pos [] root n hn
  obtain ⟨hchne, t, ts, hlast, hnode⟩ := chainFrom_shape pos [] root ch hch
  have htp : t = n := by
    rw [hn] at hnode
    exact (Option.some.inj hnode).symm
  subst htp
  have hch' : chain root pos = some ch := hch
  constructor
  · simp [cssPath, hch', hlast, hne]
  · simp [absoluteXPath, hch', hlast, hne]

theorem selector_empty_for_non_element_witness :
    cssPath docNode [] = "" ∧ absoluteXPath docNode [] = "" :=
  selector_empty_for_non_element docNode [] docNode rfl rfl

/-- C7: `cssPath` climbs from the node toward the root emitting lowercase
tag names; (a) at the first element with a non-empty id — the target
itself included — it emits `tag#id` and stops, so the whole path is that
single level; (b) one id-less level deeper extends the path by `" > "`
and the child's selector, which (`cssSel`) appends `:nth-of-type(n)` for
the 1-based ordinal `n` among preceding same-tag element siblings only
when `n > 1`; (c) the spec's example `<button id="loginBtn">` yields
`"button#loginBtn"`. -/
theorem css_builder_id_shortcut_and_nth (root : DTree) (pos : List Nat) (i : Nat)
    (n parent c : DTree) :
    (nodeAt root pos = some n → n.isElemB = true → n.idOf ≠ "" →
      cssPath root pos = lowerStr n.tagOf ++ "#" ++ n.idOf)
    ∧ (nodeAt root pos = some parent → (childrenOf parent)[i]? = some c →
        c.isElemB = true → c.idOf = "" →
        cssPath root (pos ++ [i])
          = (if parent.isElemB = true
             then cssPath root pos ++ " > " ++ cssSel c ((childrenOf parent).take i)
             else cssSel c ((childrenOf parent).take i)))
    ∧ cssPath docNode [0, 0, 0] = "button#loginBtn" := by
  refine ⟨?_, ?_, ?_⟩
  · intro hn hel hid
    exact cssPath_id_shortcut root pos n hn hel hid
  · intro hpar hchild hcel hid
    exact cssPath_snoc root pos i parent c hpar hchild hcel hid
  · decide

theorem css_builder_id_shortcut_and_nth_witness :
    cssPath docNode [0, 0, 0] = lowerStr btnNode.tagOf ++ "#" ++ btnNode.idOf
    ∧ cssPath docAnchors ([0, 0] ++ [1])
        = (if bodyAnchors.isElemB = true
           then cssPath docAnchors [0, 0] ++ " > "
               ++ cssSel anchor2 ((childrenOf bodyAnchors).take 1)
           else cssSel anchor2 ((childrenOf bodyAnchors).take 1)) := by
  constructor
  · exact (css_builder_id_shortcut_and_nth docNode [0, 0, 0] 0 btnNode btnNode btnNode).1
      rfl rfl (by decide)
  · exact (css_builder_id_shortcut_and_nth docAnchors [0, 0] 1 btnNode bodyAnchors anchor2).2.1
      rfl rfl rfl rfl

/-- C8: on attached element chains, `absoluteXPath` (a) starts with `/`;
(b) extends per level by `/` plus `xpathComp`, the `tagname[ordinal]`
component whose ordinal is 1-based among all preceding element siblings
sharing the tag name; and (c) is injective: in one well-formed static
tree, two distinct attached elements get distinct xpaths. -/
theorem xpath_absolute_positional_injective
    (root : DTree) (pos pos1 pos2 : List Nat) (i : Nat) (parent c : DTree) :
    (root.isElemB = false → allElemAt root pos = true → pos ≠ [] →
      startsWithCh (absoluteXPath root pos) '/' = true)
    ∧ (nodeAt root pos = some parent → (childrenOf parent)[i]? = some c →
        c.isElemB = true →
        absoluteXPath root (pos ++ [i])
          = absoluteXPath root pos ++ "/" ++ xpathComp c ((childrenOf parent).take i))
    ∧ (root.isElemB = false → wfTree root = true →
        allElemAt root pos1 = true → allElemAt root pos2 = true →
        pos1 ≠ [] → pos2 ≠ [] → pos1 ≠ pos2 →
        absoluteXPath root pos1 ≠ absoluteXPath root pos2) := by
  refine ⟨?_, ?_, ?_⟩
  · intro hroot hall hne
    rw [absoluteXPath_eq_comps root pos hroot hall hne]
    exact startsWith_slash _
  · intro hpar hchild hcel
    exact absoluteXPath_snoc root pos i parent c hpar hchild hcel
  · intro hroot hwf h1 h2 hn1 hn2 hne
    exact absoluteXPath_inj root pos1 pos2 hroot hwf h1 h2 hn1 hn2 hne

theorem xpath_absolute_positional_injective_witness :
    startsWithCh (absoluteXPath docAnchors [0, 0, 1]) '/' = true
    ∧ absoluteXPath docAnchors ([0, 0] ++ [1])
        = absoluteXPath docAnchors [0, 0] ++ "/"
            ++ xpathComp anchor2 ((childrenOf bodyAnchors).take 1)
    ∧ absoluteXPath docAnchors [0, 0, 0] ≠ absoluteXPath docAnchors [0, 0, 1] := by
  refine ⟨?_, ?_, ?_⟩
  · exact (xpath_absolute_positional_injective docAnchors [0, 0, 1] [0, 0, 0] [0, 0, 1]
      1 bodyAnchors anchor2).1 rfl (by decide) (by decide)
  · exact (xpath_absolute_positional_injective docAnchors [0, 0] [0, 0, 0] [0, 0, 1]
      1 bodyAnchors anchor2).2.1 rfl rfl rfl
  · exact (xpath_absolute_positional_injective docAnchors [0, 0, 0] [0, 0, 0] [0, 0, 1]
      1 bodyAnchors anchor2).2.2 rfl (by decide) (by decide) (by decide)
      (by decide) (by decide) (by decide)
